import Mathlib

/-!
Verification of the heading-extraction engine of `pdf-header-extractor`.

The repository contains two generations of the same pipeline,
`process_pdfs.py` (definitions suffixed `PP` below) and
`outline_extractor.py` (suffixed `OE`).  Both are embedded shallowly:
logical lines, profiles, headings and outline entries become Lean
structures; the regular expressions of the source are translated into
committed character-list matchers (for every pattern used by the code a
maximal-munch scan is equivalent to Python's backtracking search, because
each quantified class in those patterns is followed by a character that
the class cannot match).  Numeric fields (font sizes, coordinates) are
modelled by `ℚ`; Python's float literals `0.4`, `1.4`, … become the exact
rationals, and `str` becomes `String` (a list of characters, as Python
`len`/indexing treat it).  Page indices are `Nat`; the page arithmetic
`page + 1 - page_offset` agrees with Python for the offsets (0 or 1) the
profilers produce.  Python's `\s` / `strip()` whitespace is modelled by
the ASCII whitespace class, `\d` and the explicit numeral classes
`[0-9０-９०-९]` by `isNumCh` (the numeral scripts the program supports),
and `str.lower()` by ASCII lowercasing; the texts in all concrete inputs
below stay inside those fragments.
-/

/-- ASCII whitespace, modelling Python's `\s` / `str.strip()` class. -/
def isWS (c : Char) : Bool :=
  c = ' ' || c = '\t' || c = '\n' || c = '\r' || c = '\x0b' || c = '\x0c'

/-- The numeral class `[0-9０-９०-९]` of the structural patterns
(ASCII, full-width, Devanagari digits), also used for `\d`. -/
def isNumCh (c : Char) : Bool :=
  ('0' ≤ c && c ≤ '9') || ('０' ≤ c && c ≤ '９') || ('०' ≤ c && c ≤ '९')

/-- The separator class `[.．、]` of the depth-1 structural pattern. -/
def isSepCh (c : Char) : Bool :=
  c = '.' || c = '．' || c = '、'

/-- `[A-Z]`. -/
def isUpperAZ (c : Char) : Bool :=
  'A' ≤ c && c ≤ 'Z'

/-!
Exact comparisons on `ℚ` by integer cross-multiplication (denominators
are positive).  These mirror `<`, `≤`, `abs(x-y) < b`, `abs(x-y) <= b`
and `a*(m/n) < c` on the rationals — see the bridging lemmas `qLT_iff`
and `qLE_iff` below — while staying kernel-reducible (`Rat.sub` and
friends are irreducible). -/

/-- `a < b` on `ℚ`. -/
def qLT (a b : ℚ) : Bool := a.num * (b.den : ℤ) < b.num * (a.den : ℤ)

/-- `a ≤ b` on `ℚ`. -/
def qLE (a b : ℚ) : Bool := a.num * (b.den : ℤ) ≤ b.num * (a.den : ℤ)

/-- `abs (x - y) < bm / bn` on `ℚ` (`bn > 0`). -/
def qAbsSubLT (x y : ℚ) (bm bn : Nat) : Bool :=
  ((x.num * (y.den : ℤ) - y.num * (x.den : ℤ)).natAbs : ℤ) * bn
    < bm * ((x.den : ℤ) * (y.den : ℤ))

/-- `abs (x - y) ≤ bm / bn` on `ℚ` (`bn > 0`). -/
def qAbsSubLE (x y : ℚ) (bm bn : Nat) : Bool :=
  ((x.num * (y.den : ℤ) - y.num * (x.den : ℤ)).natAbs : ℤ) * bn
    ≤ bm * ((x.den : ℤ) * (y.den : ℤ))

/-- `a * (m / n) < c` on `ℚ` (`n > 0`). -/
def qScaledLt (a : ℚ) (m n : Nat) (c : ℚ) : Bool :=
  a.num * m * (c.den : ℤ) < c.num * ((a.den : ℤ) * n)

/-- `c < a * (m / n)` on `ℚ` (`n > 0`). -/
def qLtScaled (c a : ℚ) (m n : Nat) : Bool :=
  c.num * ((a.den : ℤ) * n) < a.num * m * (c.den : ℤ)

/-- Python's binary `max` (keeps the first argument on ties, as
`max(iterable)` keeps the first maximal element). -/
def qMax (acc x : ℚ) : ℚ := if qLT acc x then x else acc

theorem qLT_iff (a b : ℚ) : qLT a b = true ↔ a < b := by
  rw [Rat.lt_def]
  simp [qLT]

theorem qLE_iff (a b : ℚ) : qLE a b = true ↔ a ≤ b := by
  rw [Rat.le_def]
  simp [qLE]

/-- One step of `re.sub(r'\s+', ' ', ·)`: every whitespace run collapses
to a single ASCII space. -/
def collapseWS : List Char → List Char
  | [] => []
  | [c] => [if isWS c then ' ' else c]
  | c :: c2 :: cs =>
    if isWS c && isWS c2 then collapseWS (c2 :: cs)
    else (if isWS c then ' ' else c) :: collapseWS (c2 :: cs)

/-- Python `str.strip()`. -/
def stripWS (cs : List Char) : List Char :=
  ((cs.dropWhile isWS).reverse.dropWhile isWS).reverse

/-- `re.sub(r'\s+', ' ', s).strip()` on character lists. -/
def normChars (cs : List Char) : List Char :=
  stripWS (collapseWS cs)

def strip (s : String) : String := ⟨stripWS s.data⟩

def normWS (s : String) : String := ⟨normChars s.data⟩

/-- ASCII lowercasing of one character (the fragment of `str.lower()`
exercised by this program's comparisons). -/
def toLowerCh (c : Char) : Char :=
  match c with
  | 'A' => 'a' | 'B' => 'b' | 'C' => 'c' | 'D' => 'd' | 'E' => 'e' | 'F' => 'f'
  | 'G' => 'g' | 'H' => 'h' | 'I' => 'i' | 'J' => 'j' | 'K' => 'k' | 'L' => 'l'
  | 'M' => 'm' | 'N' => 'n' | 'O' => 'o' | 'P' => 'p' | 'Q' => 'q' | 'R' => 'r'
  | 'S' => 's' | 'T' => 't' | 'U' => 'u' | 'V' => 'v' | 'W' => 'w' | 'X' => 'x'
  | 'Y' => 'y' | 'Z' => 'z'
  | c => c

/-- Python `str.lower()` (ASCII fragment). -/
def lowerChars (cs : List Char) : List Char := cs.map toLowerCh

def lowerStr (s : String) : String := ⟨lowerChars s.data⟩

/-- `len(s.split())`: number of maximal non-whitespace runs. -/
def countWordsAux : List Char → Bool → Nat
  | [], _ => 0
  | c :: cs, inw =>
    if isWS c then countWordsAux cs false
    else (if inw then 0 else 1) + countWordsAux cs true

def countWords (cs : List Char) : Nat := countWordsAux cs false

/-- `'....' in text`. -/
def hasFourDots : List Char → Bool
  | '.' :: '.' :: '.' :: '.' :: _ => true
  | _ :: rest => hasFourDots rest
  | [] => false

-- Sanity checks of the utilities on concrete data.
example : normChars "  a \t b ".data = "a b".data := by decide
example : countWords "3. Overview".data = 2 := by decide

/-! ## Data model -/

/-- One logical line, as built by `extract_and_group_lines`: text, style of
the first span, zero-based page, bounding box `(x0, y0, x1, y1)`. -/
structure LogicalLine where
  text : String
  font_size : ℚ
  font_name : String
  is_bold : Bool
  page : Nat
  x0 : ℚ
  y0 : ℚ
  x1 : ℚ
  y1 : ℚ
  deriving DecidableEq, Repr

/-- A classified heading `{**line, 'level': level}`, restricted to the
fields the finalizer reads (`text`, `level`, `page`, `bbox[1]`). -/
structure Heading where
  text : String
  level : String
  page : Nat
  y0 : ℚ
  deriving DecidableEq, Repr

def mkHeading (l : LogicalLine) (lv : String) : Heading :=
  { text := l.text, level := lv, page := l.page, y0 := l.y0 }

/-- Document profile of `process_pdfs.py` (`baseline_font_size`,
`page_offset`, `left_margin`). -/
structure ProfilePP where
  baseline_font_size : ℚ
  page_offset : Nat
  left_margin : ℚ
  deriving DecidableEq, Repr

/-- Document profile of `outline_extractor.py` (no `left_margin`). -/
structure ProfileOE where
  baseline_font_size : ℚ
  page_offset : Nat
  deriving DecidableEq, Repr

/-- A finalized outline record. -/
structure OutlineEntry where
  level : String
  text : String
  page : Nat
  deriving DecidableEq, Repr

/-- The record returned by `process_single_pdf`. -/
structure PipelineResult where
  title : String
  outline : List OutlineEntry
  deriving DecidableEq, Repr

/-! ## process_pdfs.py — heading classifier -/

/-- `^([0-9０-９०-९]+)[.．、]\s`. -/
def matchH1PP (cs : List Char) : Bool :=
  !(cs.takeWhile isNumCh).isEmpty &&
    match cs.dropWhile isNumCh with
    | s :: w :: _ => isSepCh s && isWS w
    | _ => false

/-- `^([0-9０-９०-९]+\.[0-9０-９०-९]+)\s`. -/
def matchH2PP (cs : List Char) : Bool :=
  !(cs.takeWhile isNumCh).isEmpty &&
    match cs.dropWhile isNumCh with
    | '.' :: r2 =>
      !(r2.takeWhile isNumCh).isEmpty &&
        match r2.dropWhile isNumCh with
        | w :: _ => isWS w
        | [] => false
    | _ => false

/-- `^([0-9０-９०-९]+\.[0-9０-９०-९]+\.[0-9０-９०-९]+)\s`. -/
def matchH3PP (cs : List Char) : Bool :=
  !(cs.takeWhile isNumCh).isEmpty &&
    match cs.dropWhile isNumCh with
    | '.' :: r2 =>
      !(r2.takeWhile isNumCh).isEmpty &&
        match r2.dropWhile isNumCh with
        | '.' :: r3 =>
          !(r3.takeWhile isNumCh).isEmpty &&
            match r3.dropWhile isNumCh with
            | w :: _ => isWS w
            | [] => false
        | _ => false
    | _ => false

/-- The `structural_patterns` cascade: first matching pattern wins. -/
def structuralLevelPP (cs : List Char) : Option String :=
  if matchH1PP cs then some "H1"
  else if matchH2PP cs then some "H2"
  else if matchH3PP cs then some "H3"
  else none

/-- `^\d\.\d+\s+\d{1,2}\s+[A-Z]{3,}` (the revision-table filter). -/
def dateLikePP (cs : List Char) : Bool :=
  match cs with
  | c1 :: '.' :: r =>
    isNumCh c1 &&
    !(r.takeWhile isNumCh).isEmpty &&
    (let r2 := r.dropWhile isNumCh
     !(r2.takeWhile isWS).isEmpty &&
     (let r3 := r2.dropWhile isWS
      let d3 := r3.takeWhile isNumCh
      (d3.length = 1 || d3.length = 2) &&
      (let r4 := r3.dropWhile isNumCh
       !(r4.takeWhile isWS).isEmpty &&
       (let r5 := r4.dropWhile isWS
        decide (3 ≤ (r5.takeWhile isUpperAZ).length)))))
  | _ => false

/-- The multilingual keyword set `special_h1s`. -/
def special_h1s : List String :=
  ["Revision History", "Table of Contents", "Acknowledgements", "References",
   "改訂履歴", "目次", "謝辞", "参考文献",
   "修订历史", "目录", "致谢",
   "संशोधन इतिहास", "विषय-सूची", "आभार", "संदर्भ"]

/-- `find_headings` of `process_pdfs.py`: negative filters, then the
structural cascade gated by the left margin (±15pt), then the keyword
rule gated by boldness/oversize. -/
def find_headingsPP : List LogicalLine → ProfilePP → List Heading
  | [], _ => []
  | l :: ls, p =>
    let rest := find_headingsPP ls p
    let cs := l.text.data
    if hasFourDots cs || dateLikePP cs then rest
    else
      let kw : List Heading :=
        if strip l.text ∈ special_h1s then
          if l.is_bold || qLT p.baseline_font_size l.font_size then
            mkHeading l "H1" :: rest
          else rest
        else rest
      match structuralLevelPP cs with
      | some lv =>
        if qAbsSubLT l.x0 p.left_margin 15 1 then mkHeading l lv :: rest else kw
      | none => kw

-- The depth law on concrete data, and the separator/margin behaviour.
example : structuralLevelPP "1. Introduction".data = some "H1" := by decide
example : structuralLevelPP "2.1 Audience".data = some "H2" := by decide
example : structuralLevelPP "2.1.3 Scope".data = some "H3" := by decide
example : structuralLevelPP "1.2.3.4 Deep".data = none := by decide
example : structuralLevelPP "1.Introduction".data = none := by decide
example : dateLikePP "1.2  18 JUNE 2013".data = true := by decide
example : hasFourDots "Intro......4".data = true := by decide

/-! ## outline_extractor.py — heading classifier -/

/-- Scanner for `(\.\d+)*` after the first numeral run: consumes the tail
of the current run, then further `.digits` segments, returning the
segment count and the remainder. -/
def segsT : List Char → Nat → Nat × List Char
  | [], n => (n, [])
  | c :: rest, n =>
    if isNumCh c then segsT rest n
    else if c = '.' then
      match rest with
      | c2 :: rest2 => if isNumCh c2 then segsT rest2 (n + 1) else (n, c :: rest)
      | [] => (n, c :: rest)
    else (n, c :: rest)

/-- `\s+.+` as an anchored prefix test (`.` excludes newlines). -/
def wsTailOK : List Char → Bool
  | c :: rest => isWS c && !(rest.dropWhile (fun x => x = '\n')).isEmpty
  | [] => false

/-- `^(\d+(\.\d+)*)\s+.+`, returning the number of `.`-separated numeral
segments of the match. -/
def numberedOE (cs : List Char) : Option Nat :=
  match cs with
  | c :: rest =>
    if isNumCh c then
      let p := segsT rest 1
      if wsTailOK p.2 then some p.1 else none
    else none
  | [] => none

/-- The structure-based branch of `is_strong_heading`:
`level = count('.') + 1`, kept only when `level <= 3`. -/
def numberedRuleOE (cs : List Char) : Option String :=
  match numberedOE cs with
  | some n => if n ≤ 3 then some ("H" ++ toString n) else none
  | none => none

/-- `^\d{1,2} [A-Z]{3,}` (e.g. "18 JUN"). -/
def dayCapsOE (cs : List Char) : Bool :=
  let d := cs.takeWhile isNumCh
  (d.length = 1 || d.length = 2) &&
    match cs.dropWhile isNumCh with
    | ' ' :: r2 => decide (3 ≤ (r2.takeWhile isUpperAZ).length)
    | _ => false

/-- `^page\s+\d+\s+of\s+\d+` against `text.lower()`. -/
def pageFooterOE (cs : List Char) : Bool :=
  match lowerChars cs with
  | 'p' :: 'a' :: 'g' :: 'e' :: r =>
    !(r.takeWhile isWS).isEmpty &&
    (let r1 := r.dropWhile isWS
     !(r1.takeWhile isNumCh).isEmpty &&
     (let r2 := r1.dropWhile isNumCh
      !(r2.takeWhile isWS).isEmpty &&
      (match r2.dropWhile isWS with
       | 'o' :: 'f' :: r4 =>
         !(r4.takeWhile isWS).isEmpty &&
           !((r4.dropWhile isWS).takeWhile isNumCh).isEmpty
       | _ => false)))
  | _ => false

/-- `^<word>\s+\d+` for the localized chapter/section tokens. -/
def litWsNum (lit : List Char) (cs : List Char) : Bool :=
  decide (cs.take lit.length = lit) &&
  (let r := cs.drop lit.length
   !(r.takeWhile isWS).isEmpty &&
     !((r.dropWhile isWS).takeWhile isNumCh).isEmpty)

/-- `^第\d+章` / `^第\d+节`. -/
def daiTok (close : Char) (cs : List Char) : Bool :=
  match cs with
  | '第' :: r =>
    !(r.takeWhile isNumCh).isEmpty &&
      match r.dropWhile isNumCh with
      | c :: _ => c = close
      | [] => false
  | _ => false

/-- The `common_section_prefixes` cascade. -/
def chapterLikeOE (cs : List Char) : Bool :=
  litWsNum "Chapter".data cs || litWsNum "Section".data cs ||
  litWsNum "Capítulo".data cs || litWsNum "अध्याय".data cs ||
  litWsNum "प्रकरण".data cs || daiTok '章' cs || daiTok '节' cs

/-- `is_strong_heading` of `outline_extractor.py`: noise filters, the
numbered rule, localized section tokens, then the large/bold/short
format fallback (`False` becomes `none`). -/
def is_strong_headingOE (l : LogicalLine) (baseline : ℚ) : Option String :=
  let t := strip l.text
  let cs := t.data
  if t.length < 3 || countWords cs > 20 then none
  else if dayCapsOE cs then none
  else if pageFooterOE cs then none
  else
    match numberedRuleOE cs with
    | some lv => some lv
    | none =>
      if chapterLikeOE cs then some "H1"
      else if qScaledLt baseline 7 5 l.font_size && l.is_bold &&
              decide (countWords cs ≤ 10) then some "H2"
      else none

/-- The English-only keyword list `strong_H1s`. -/
def strong_H1s : List String :=
  ["Revision History", "Table of Contents", "Acknowledgements", "References"]

/-- The second loop of `find_headings` (non-keyword lines through
`is_strong_heading`). -/
def findRegularOE : List LogicalLine → ℚ → List Heading
  | [], _ => []
  | l :: ls, base =>
    if strip l.text ∈ strong_H1s then findRegularOE ls base
    else
      match is_strong_headingOE l base with
      | some lv => mkHeading l lv :: findRegularOE ls base
      | none => findRegularOE ls base

/-- `find_headings` of `outline_extractor.py`: every keyword line is
classified H1 unconditionally (first loop), then the regular pass. -/
def find_headingsOE (lines : List LogicalLine) (p : ProfileOE) : List Heading :=
  (lines.filter (fun l => decide (strip l.text ∈ strong_H1s))).map (fun l => mkHeading l "H1")
    ++ findRegularOE lines p.baseline_font_size

example : numberedRuleOE "2.1 Audience".data = some "H2" := by decide
example : numberedRuleOE "1 Introduction".data = some "H1" := by decide
example : numberedRuleOE "1. Introduction".data = none := by decide
example : numberedRuleOE "1.2.3.4 Deep".data = none := by decide
example : numberedOE "1.2.3.4 Deep".data = some 4 := by decide
example : pageFooterOE "Page 3 of 10".data = true := by decide
example : chapterLikeOE "Chapter 12: The End".data = true := by decide

/-! ## Finalizer (both files) -/

/-- Strict lexicographic order on the Python sort key `(page, bbox[1])`. -/
def hLT (a b : Heading) : Prop :=
  a.page < b.page ∨ (a.page = b.page ∧ qLT a.y0 b.y0 = true)

instance (a b : Heading) : Decidable (hLT a b) := by unfold hLT; infer_instance

/-- Stable insertion: a later element goes after equal-key earlier ones. -/
def insertH (x : Heading) : List Heading → List Heading
  | [] => [x]
  | y :: ys => if hLT y x then y :: insertH x ys else x :: y :: ys

/-- Python's stable `list.sort(key=(page, bbox[1]))`. -/
def sortHeadings : List Heading → List Heading
  | [] => []
  | x :: xs => insertH x (sortHeadings xs)

/-- `^[0-9０-９०-९]+[.．、]\s*` — since `\s*` cannot fail, this is also
`^[0-9０-９०-९]+[.．、]` (the "next is numbered" test). -/
def startsNumSep (cs : List Char) : Bool :=
  !(cs.takeWhile isNumCh).isEmpty &&
    match cs.dropWhile isNumCh with
    | s :: _ => isSepCh s
    | [] => false

/-- The continuation-merge scan of `process_pdfs.py`: a numbered heading
absorbs an unnumbered same-page successor, joined by one space, and the
scan resumes after the absorbed entry. -/
def mergePassPP : List Heading → List Heading
  | [] => []
  | [h] => [h]
  | h1 :: h2 :: rest =>
    if h1.page = h2.page ∧ startsNumSep h1.text.data = true ∧
        startsNumSep h2.text.data = false then
      { h1 with text := ⟨stripWS h1.text.data ++ (' ' :: stripWS h2.text.data)⟩ }
        :: mergePassPP rest
    else h1 :: mergePassPP (h2 :: rest)

/-- `^\d\.\s` (single digit). -/
def oeStub (cs : List Char) : Bool :=
  match cs with
  | c1 :: c2 :: c3 :: _ => isNumCh c1 && (c2 = '.') && isWS c3
  | _ => false

/-- `^\d\.` (single digit). -/
def oeNumbered (cs : List Char) : Bool :=
  match cs with
  | c1 :: c2 :: _ => isNumCh c1 && (c2 = '.')
  | _ => false

/-- `str.replace(' - ', ' – ')` (left-to-right, non-overlapping). -/
def replDash : List Char → List Char
  | c1 :: c2 :: c3 :: rest =>
    if c1 = ' ' ∧ c2 = '-' ∧ c3 = ' ' then ' ' :: '–' :: ' ' :: replDash rest
    else c1 :: replDash (c2 :: c3 :: rest)
  | c :: rest => c :: replDash rest
  | [] => []

/-- The continuation-merge scan of `outline_extractor.py`: the absorbed
text is appended with no separator, after `' - '` → `' – '` in the
first text. -/
def mergePassOE : List Heading → List Heading
  | [] => []
  | [h] => [h]
  | h1 :: h2 :: rest =>
    if h1.page = h2.page ∧ oeStub h1.text.data = true ∧
        oeNumbered h2.text.data = false then
      { h1 with text := ⟨replDash h1.text.data ++ h2.text.data⟩ }
        :: mergePassOE rest
    else h1 :: mergePassOE (h2 :: rest)

/-- The dedup key `(clean_text.lower(), final_page)`. -/
def mkKey (off : Nat) (h : Heading) : String × Nat :=
  (lowerStr (normWS h.text), h.page + 1 - off)

/-- The emitted record: cleaned text plus one trailing space, and
`final_page = item['page'] + 1 - page_offset`. -/
def mkEntry (off : Nat) (h : Heading) : OutlineEntry :=
  { level := h.level, text := normWS h.text ++ " ", page := h.page + 1 - off }

/-- The final formatting-and-dedup loop (identical in both files). -/
def finalizePass (off : Nat) : List Heading → List (String × Nat) → List OutlineEntry
  | [], _ => []
  | h :: t, seen =>
    if mkKey off h ∈ seen then finalizePass off t seen
    else mkEntry off h :: finalizePass off t (mkKey off h :: seen)

def finalize_outlinePP (hs : List Heading) (p : ProfilePP) : List OutlineEntry :=
  if hs = [] then []
  else finalizePass p.page_offset (mergePassPP (sortHeadings hs)) []

def finalize_outlineOE (hs : List Heading) (p : ProfileOE) : List OutlineEntry :=
  if hs = [] then []
  else finalizePass p.page_offset (mergePassOE (sortHeadings hs)) []

/-! ## Profilers and title extractors -/

/-- `(l.filter (· = x)).length`, the count a `Counter` assigns to `x`. -/
def countEq [DecidableEq α] (l : List α) (x : α) : Nat :=
  (l.filter (fun y => decide (y = x))).length

/-- Left scan keeping the first value of maximal multiplicity — the head
of `Counter(l).most_common(1)` (Python's sort is stable, so ties go to
the first-inserted value). -/
def bestOf [DecidableEq α] (all : List α) : List α → α → α
  | [], b => b
  | x :: xs, b =>
    if countEq all b < countEq all x then bestOf all xs x else bestOf all xs b

def modeFirst [DecidableEq α] : List α → Option α
  | [] => none
  | x :: xs => some (bestOf (x :: xs) xs x)

/-- Python `int()` on a rational: truncation toward zero (`Int.tdiv`
truncates toward zero and denominators are positive). -/
def truncInt (q : ℚ) : Int := q.num.tdiv (q.den : ℤ)

/-- The profile built by `extract_and_group_lines` in `process_pdfs.py`
(the document's extracted logical lines and its page count are the
inputs the computation reads). -/
def build_profilePP (lines : List LogicalLine) (pageCount : Nat) : ProfilePP :=
  { baseline_font_size :=
      (modeFirst ((lines.filter (fun l => decide (15 < l.text.length))).map
        (fun l => l.font_size))).getD 10
  , page_offset :=
      if (lines.filter (fun l => decide (l.page = 0))).length < 10 ∧ 1 < pageCount
      then 1 else 0
  , left_margin :=
      (((modeFirst ((lines.filter (fun l => decide (20 < l.text.length))).map
        (fun l => truncInt l.x0))).getD 72 : Int) : ℚ) }

/-- The profile built by `extract_and_group_lines` in
`outline_extractor.py`: the page offset ignores the page count. -/
def build_profileOE (lines : List LogicalLine) : ProfileOE :=
  { baseline_font_size :=
      (modeFirst ((lines.filter (fun l => decide (20 < l.text.length))).map
        (fun l => l.font_size))).getD 12
  , page_offset :=
      if (lines.filter (fun l => decide (l.page = 0))).length < 5 then 1 else 0 }

/-- Strict lexicographic order on `(bbox[1], bbox[0])`. -/
def lineLT (a b : LogicalLine) : Prop :=
  qLT a.y0 b.y0 = true ∨ (a.y0 = b.y0 ∧ qLT a.x0 b.x0 = true)

instance (a b : LogicalLine) : Decidable (lineLT a b) := by
  unfold lineLT; infer_instance

def insertLine (x : LogicalLine) : List LogicalLine → List LogicalLine
  | [] => [x]
  | y :: ys => if lineLT y x then y :: insertLine x ys else x :: y :: ys

def sortLinesYX : List LogicalLine → List LogicalLine
  | [] => []
  | x :: xs => insertLine x (sortLinesYX xs)

/-- `"".join(line['text'] for line in title_lines)`. -/
def joinData : List LogicalLine → List Char
  | [] => []
  | l :: ls => l.text.data ++ joinData ls

/-- `extract_title` of `process_pdfs.py`. -/
def extract_titlePP (lines : List LogicalLine) : String :=
  match lines.filter (fun l => decide (l.page = 0)) with
  | [] => ""
  | l0 :: rest =>
    let maxfs := (rest.map (fun l => l.font_size)).foldl qMax l0.font_size
    let tls := (l0 :: rest).filter (fun l => qAbsSubLT l.font_size maxfs 1 2)
    ⟨stripWS (joinData (sortLinesYX tls))⟩

/-- `" ".join(line['text'].strip() for line in candidate_lines)`. -/
def joinSpaced : List LogicalLine → List Char
  | [] => []
  | [l] => stripWS l.text.data
  | l :: ls => stripWS l.text.data ++ (' ' :: joinSpaced ls)

/-- `extract_title` of `outline_extractor.py` (the live first body):
top 40% of the first page, maximal font within 0.5pt, space-joined. -/
def extract_titleOE (lines : List LogicalLine) : String :=
  match lines.filter (fun l => decide (l.page = 0)) with
  | [] => ""
  | l0 :: rest =>
    let maxY := (rest.map (fun l => l.y1)).foldl qMax l0.y1
    match (l0 :: rest).filter (fun l => qLtScaled l.y0 maxY 2 5) with
    | [] => ""
    | t0 :: trest =>
      let maxF := (trest.map (fun l => l.font_size)).foldl qMax t0.font_size
      let cand := (t0 :: trest).filter
        (fun l => qAbsSubLE l.font_size maxF 1 2)
      normWS ⟨joinSpaced cand⟩

/-! ## Pipelines (`process_single_pdf`, success path) -/

def process_linesPP (lines : List LogicalLine) (pageCount : Nat) : PipelineResult :=
  let p := build_profilePP lines pageCount
  { title := strip (extract_titlePP lines) ++ "  "
  , outline := finalize_outlinePP (find_headingsPP lines p) p }

def process_linesOE (lines : List LogicalLine) : PipelineResult :=
  let p := build_profileOE lines
  { title := strip (extract_titleOE lines) ++ "  "
  , outline := finalize_outlineOE (find_headingsOE lines p) p }

example : process_linesPP [] 1 = { title := "  ", outline := [] } := by decide
example : process_linesOE [] = { title := "  ", outline := [] } := by decide

/-! ## Character-class lemmas -/

theorem isWS_cases {c : Char} (h : isWS c = true) :
    c = ' ' ∨ c = '\t' ∨ c = '\n' ∨ c = '\r' ∨ c = '\x0b' ∨ c = '\x0c' := by
  simp only [isWS, Bool.or_eq_true, decide_eq_true_eq] at h
  tauto

theorem isSepCh_cases {c : Char} (h : isSepCh c = true) :
    c = '.' ∨ c = '．' ∨ c = '、' := by
  simp only [isSepCh, Bool.or_eq_true, decide_eq_true_eq] at h
  tauto

theorem ws_not_num {c : Char} (h : isWS c = true) : isNumCh c = false := by
  rcases isWS_cases h with h | h | h | h | h | h <;> subst h <;> decide

theorem num_not_ws {c : Char} (h : isNumCh c = true) : isWS c = false := by
  cases hw : isWS c with
  | false => rfl
  | true => rw [ws_not_num hw] at h; exact absurd h (by simp)

theorem sep_not_num {c : Char} (h : isSepCh c = true) : isNumCh c = false := by
  rcases isSepCh_cases h with h | h | h <;> subst h <;> decide

theorem sep_not_ws {c : Char} (h : isSepCh c = true) : isWS c = false := by
  rcases isSepCh_cases h with h | h | h <;> subst h <;> decide

theorem toLowerCh_isNum (c : Char) : isNumCh (toLowerCh c) = isNumCh c := by
  unfold toLowerCh
  split <;> rfl

theorem toLowerCh_isSep (c : Char) : isSepCh (toLowerCh c) = isSepCh c := by
  unfold toLowerCh
  split <;> rfl

theorem toLowerCh_eq_dot {c : Char} : toLowerCh c = '.' ↔ c = '.' := by
  unfold toLowerCh
  split <;> simp_all

/-! ## takeWhile / dropWhile helpers -/

theorem takeWhile_append_all {p : Char → Bool} {xs ys : List Char}
    (h : ∀ a ∈ xs, p a = true) :
    (xs ++ ys).takeWhile p = xs ++ ys.takeWhile p := by
  induction xs with
  | nil => simp
  | cons a l ih =>
    simp only [List.cons_append, List.takeWhile_cons, h a (by simp), if_true]
    rw [ih (fun b hb => h b (by simp [hb]))]

theorem dropWhile_append_all {p : Char → Bool} {xs ys : List Char}
    (h : ∀ a ∈ xs, p a = true) :
    (xs ++ ys).dropWhile p = ys.dropWhile p := by
  induction xs with
  | nil => simp
  | cons a l ih =>
    simp only [List.cons_append, List.dropWhile_cons, h a (by simp), if_true]
    exact ih (fun b hb => h b (by simp [hb]))

theorem takeWhile_cons_false {p : Char → Bool} {c : Char} {l : List Char}
    (h : p c = false) : (c :: l).takeWhile p = [] := by
  simp [List.takeWhile_cons, h]

theorem dropWhile_cons_false {p : Char → Bool} {c : Char} {l : List Char}
    (h : p c = false) : (c :: l).dropWhile p = c :: l := by
  simp [List.dropWhile_cons, h]

theorem takeWhile_eq_self_of_all {p : Char → Bool} {l : List Char}
    (h : ∀ a ∈ l, p a = true) : l.takeWhile p = l := by
  have := @takeWhile_append_all p l [] h
  simpa using this

theorem dropWhile_eq_self_of_all {p : Char → Bool} {l : List Char}
    (h : ∀ a ∈ l, p a = false) : l.dropWhile p = l := by
  cases l with
  | nil => rfl
  | cons a t => exact dropWhile_cons_false (h a (by simp))

theorem dropWhile_head_false {p : Char → Bool} {l : List Char} {w : Char}
    {t : List Char} (h : l.dropWhile p = w :: t) : p w = false := by
  induction l with
  | nil => simp at h
  | cons a l ih =>
    rw [List.dropWhile_cons] at h
    by_cases hp : p a = true
    · rw [if_pos hp] at h; exact ih h
    · rw [if_neg hp] at h
      cases h
      simpa using hp

/-! ## Whitespace normalization lemmas -/

theorem collapseWS_cons_nonws {c : Char} (h : isWS c = false) (cs : List Char) :
    collapseWS (c :: cs) = c :: collapseWS cs := by
  cases cs with
  | nil => simp [collapseWS, h]
  | cons c2 t => simp [collapseWS, h]

theorem collapse_nonws_run {xs : List Char} (h : ∀ a ∈ xs, isWS a = false)
    (ys : List Char) : collapseWS (xs ++ ys) = xs ++ collapseWS ys := by
  induction xs with
  | nil => rfl
  | cons a l ih =>
    rw [List.cons_append, collapseWS_cons_nonws (h a (by simp)),
      ih (fun b hb => h b (by simp [hb]))]
    rfl

theorem collapse_ws_head {w : Char} (hw : isWS w = true) (rest : List Char) :
    ∃ t, collapseWS (w :: rest) = ' ' :: t := by
  induction rest generalizing w with
  | nil => exact ⟨[], by simp [collapseWS, hw]⟩
  | cons c2 t ih =>
    by_cases h2 : isWS c2 = true
    · obtain ⟨u, hu⟩ := ih h2
      exact ⟨u, by rw [collapseWS, if_pos (by simp [hw, h2]), hu]⟩
    · refine ⟨collapseWS (c2 :: t), ?_⟩
      have hb : (isWS w && isWS c2) = false := by simp [h2]
      rw [collapseWS, if_neg (by simp [h2]), if_pos hw]

/-- The part of a list kept by stripping trailing whitespace. -/
def backStrip (cs : List Char) : List Char :=
  (cs.reverse.dropWhile isWS).reverse

theorem stripWS_eq_backStrip (cs : List Char) :
    stripWS cs = backStrip (cs.dropWhile isWS) := rfl

theorem backStrip_all_nonws {xs : List Char} (h : ∀ a ∈ xs, isWS a = false) :
    backStrip xs = xs := by
  unfold backStrip
  rw [dropWhile_eq_self_of_all (fun a ha => h a (List.mem_reverse.mp ha))]
  exact List.reverse_reverse xs

theorem backStrip_append_nonempty {xs ys : List Char} (h : backStrip ys ≠ []) :
    backStrip (xs ++ ys) = xs ++ backStrip ys := by
  unfold backStrip at *
  rw [List.reverse_append, List.dropWhile_append]
  have hne : (ys.reverse.dropWhile isWS).isEmpty = false := by
    rw [List.isEmpty_eq_false]
    intro hc
    exact h (by rw [hc]; rfl)
  rw [if_neg (by simp [hne]), List.reverse_append, List.reverse_reverse]

theorem backStrip_append_empty {xs ys : List Char} (h : backStrip ys = []) :
    backStrip (xs ++ ys) = backStrip xs := by
  unfold backStrip at *
  rw [List.reverse_append, List.dropWhile_append]
  have he : (ys.reverse.dropWhile isWS).isEmpty = true := by
    rw [List.isEmpty_iff]
    have := congrArg List.reverse h
    simpa using this
  rw [if_pos he]

theorem ws_not_sep {c : Char} (h : isWS c = true) : isSepCh c = false := by
  cases hs : isSepCh c with
  | false => rfl
  | true => rw [sep_not_ws hs] at h; exact absurd h (by simp)

theorem backStrip_cons_struct (c : Char) (u : List Char) :
    backStrip (c :: u) = [] ∨ ∃ u', backStrip (c :: u) = c :: u' := by
  unfold backStrip
  rw [show (c :: u).reverse = u.reverse ++ [c] from by simp, List.dropWhile_append]
  by_cases he : (u.reverse.dropWhile isWS).isEmpty = true
  · rw [if_pos he]
    by_cases hc : isWS c = true
    · left; simp [List.dropWhile_cons, hc]
    · right; exact ⟨[], by simp [List.dropWhile_cons, hc]⟩
  · rw [if_neg he]
    right
    exact ⟨(u.reverse.dropWhile isWS).reverse, by simp⟩

theorem backStrip_cons_nonws {c : Char} (hc : isWS c = false) (u : List Char) :
    ∃ u', backStrip (c :: u) = c :: u' := by
  unfold backStrip
  rw [show (c :: u).reverse = u.reverse ++ [c] from by simp, List.dropWhile_append]
  by_cases he : (u.reverse.dropWhile isWS).isEmpty = true
  · rw [if_pos he]
    exact ⟨[], by simp [List.dropWhile_cons, hc]⟩
  · rw [if_neg he]
    exact ⟨(u.reverse.dropWhile isWS).reverse, by simp⟩

/-- The maximal leading non-whitespace run. -/
def leadRun (cs : List Char) : List Char :=
  cs.takeWhile (fun c => !isWS c)

theorem normChars_decomp {c0 : Char} {t : List Char} (h0 : isWS c0 = false) :
    normChars (c0 :: t) = leadRun (c0 :: t) ∨
      ∃ u, normChars (c0 :: t) = leadRun (c0 :: t) ++ ' ' :: u := by
  have hsplit : leadRun (c0 :: t) ++ (c0 :: t).dropWhile (fun c => !isWS c)
      = c0 :: t := List.takeWhile_append_dropWhile _ _
  have hR : ∀ a ∈ leadRun (c0 :: t), isWS a = false := by
    intro a ha
    unfold leadRun at ha
    have := List.mem_takeWhile_imp ha
    simpa using this
  have hlr : leadRun (c0 :: t) = c0 :: t.takeWhile (fun c => !isWS c) := by
    simp [leadRun, List.takeWhile_cons, h0]
  cases hW : (c0 :: t).dropWhile (fun c => !isWS c) with
  | nil =>
    left
    have hcseq : leadRun (c0 :: t) = c0 :: t := by
      have h2 := hsplit
      rw [hW, List.append_nil] at h2
      exact h2
    show stripWS (collapseWS (c0 :: t)) = _
    conv_lhs => rw [← hcseq]
    have hcoll : collapseWS (leadRun (c0 :: t)) = leadRun (c0 :: t) := by
      have := collapse_nonws_run hR []
      simpa [collapseWS] using this
    rw [hcoll, stripWS_eq_backStrip, dropWhile_eq_self_of_all hR,
      backStrip_all_nonws hR]
  | cons w W' =>
    have hw : isWS w = true := by
      have := dropWhile_head_false hW
      simpa using this
    obtain ⟨u, hu⟩ := collapse_ws_head hw W'
    have hcoll : collapseWS (c0 :: t) = leadRun (c0 :: t) ++ ' ' :: u := by
      conv_lhs => rw [← hsplit, hW]
      rw [collapse_nonws_run hR, hu]
    have hdw : (leadRun (c0 :: t) ++ ' ' :: u).dropWhile isWS
        = leadRun (c0 :: t) ++ ' ' :: u := by
      rw [hlr, List.cons_append]
      exact dropWhile_cons_false h0
    rcases backStrip_cons_struct ' ' u with hbs | ⟨u', hbs⟩
    · left
      show stripWS (collapseWS (c0 :: t)) = _
      rw [hcoll, stripWS_eq_backStrip, hdw, backStrip_append_empty hbs,
        backStrip_all_nonws hR]
    · right
      refine ⟨u', ?_⟩
      show stripWS (collapseWS (c0 :: t)) = _
      rw [hcoll, stripWS_eq_backStrip, hdw,
        backStrip_append_nonempty (by rw [hbs]; exact List.cons_ne_nil _ _), hbs]

theorem leadRun_normChars {c0 : Char} {t : List Char} (h0 : isWS c0 = false) :
    leadRun (normChars (c0 :: t)) = leadRun (c0 :: t) := by
  have hR : ∀ a ∈ leadRun (c0 :: t), (fun c => !isWS c) a = true := by
    intro a ha
    unfold leadRun at ha
    exact List.mem_takeWhile_imp (p := fun c => !isWS c) ha
  rcases normChars_decomp h0 with h | ⟨u, h⟩
  · rw [h]
    exact takeWhile_eq_self_of_all hR
  · rw [h]
    show List.takeWhile _ _ = _
    rw [takeWhile_append_all hR, takeWhile_cons_false (by decide)]
    exact List.append_nil _

theorem takeWhile_num_leadRun (cs : List Char) :
    (leadRun cs).takeWhile isNumCh = cs.takeWhile isNumCh := by
  unfold leadRun
  rw [List.takeWhile_takeWhile]
  congr 1
  funext a
  by_cases h : isNumCh a = true
  · simp [h, num_not_ws h]
  · rw [Bool.not_eq_true] at h
    simp [h]

theorem startsNumSep_leadRun (cs : List Char) :
    startsNumSep (leadRun cs) = startsNumSep cs := by
  unfold startsNumSep
  rw [takeWhile_num_leadRun]
  have hsplit : cs.takeWhile isNumCh ++ cs.dropWhile isNumCh = cs :=
    List.takeWhile_append_dropWhile _ _
  have hDnum : ∀ a ∈ cs.takeWhile isNumCh, isNumCh a = true :=
    fun a ha => List.mem_takeWhile_imp ha
  have hDnn : ∀ a ∈ cs.takeWhile isNumCh, (fun c => !isWS c) a = true := by
    intro a ha
    simp [num_not_ws (hDnum a ha)]
  have hlead : leadRun cs
      = cs.takeWhile isNumCh ++ (cs.dropWhile isNumCh).takeWhile (fun c => !isWS c) := by
    unfold leadRun
    conv_lhs => rw [← hsplit]
    rw [takeWhile_append_all hDnn]
  have hdrop : (leadRun cs).dropWhile isNumCh
      = ((cs.dropWhile isNumCh).takeWhile (fun c => !isWS c)).dropWhile isNumCh := by
    rw [hlead, dropWhile_append_all hDnum]
  rw [hdrop]
  cases hrest : cs.dropWhile isNumCh with
  | nil => rfl
  | cons s rest' =>
    have hs : isNumCh s = false := dropWhile_head_false hrest
    by_cases hws : isWS s = true
    · rw [takeWhile_cons_false (by simp [hws])]
      simp [ws_not_sep hws]
    · rw [Bool.not_eq_true] at hws
      rw [List.takeWhile_cons, if_pos (by simp [hws]), dropWhile_cons_false hs]

theorem oeNumbered_leadRun (cs : List Char) :
    oeNumbered (leadRun cs) = oeNumbered cs := by
  match cs with
  | [] => rfl
  | [c1] =>
    by_cases h1 : isWS c1 = true <;>
      simp [leadRun, List.takeWhile_cons, h1, oeNumbered]
  | c1 :: c2 :: r =>
    by_cases h1 : isWS c1 = true
    · simp [leadRun, List.takeWhile_cons, h1, oeNumbered, ws_not_num h1]
    · rw [Bool.not_eq_true] at h1
      by_cases h2 : isWS c2 = true
      · have hne : (c2 = '.') = False := by
          simp only [eq_iff_iff, iff_false]
          intro hc
          subst hc
          exact absurd h2 (by decide)
        simp [leadRun, List.takeWhile_cons, h1, h2, oeNumbered, hne]
      · rw [Bool.not_eq_true] at h2
        simp [leadRun, List.takeWhile_cons, h1, h2, oeNumbered]

theorem startsNumSep_lower (cs : List Char) :
    startsNumSep (lowerChars cs) = startsNumSep cs := by
  unfold startsNumSep lowerChars
  have hf : (isNumCh ∘ toLowerCh) = isNumCh := funext toLowerCh_isNum
  rw [List.takeWhile_map, List.dropWhile_map, hf]
  congr 1
  · cases cs.takeWhile isNumCh <;> rfl
  · cases cs.dropWhile isNumCh with
    | nil => rfl
    | cons s t => simp [toLowerCh_isSep]

theorem oeNumbered_lower (cs : List Char) :
    oeNumbered (lowerChars cs) = oeNumbered cs := by
  match cs with
  | [] => rfl
  | [c1] => rfl
  | c1 :: c2 :: r =>
    show oeNumbered (toLowerCh c1 :: toLowerCh c2 :: _) = _
    simp [oeNumbered, toLowerCh_isNum, toLowerCh_eq_dot]

theorem startsNumSep_norm {c0 : Char} {t : List Char} (h0 : isWS c0 = false) :
    startsNumSep (normChars (c0 :: t)) = startsNumSep (c0 :: t) := by
  rw [← startsNumSep_leadRun (normChars (c0 :: t)), leadRun_normChars h0,
    startsNumSep_leadRun]

theorem oeNumbered_norm {c0 : Char} {t : List Char} (h0 : isWS c0 = false) :
    oeNumbered (normChars (c0 :: t)) = oeNumbered (c0 :: t) := by
  rw [← oeNumbered_leadRun (normChars (c0 :: t)), leadRun_normChars h0,
    oeNumbered_leadRun]

/-! ## Finalizer lemmas -/

/-- The key an emitted entry carries (its text still has the appended
trailing space). -/
def eKey (e : OutlineEntry) : String × Nat := (lowerStr e.text, e.page)

/-- `mkKey` with the trailing space appended to the text component. -/
def spaceKey (k : String × Nat) : String × Nat := (k.1 ++ " ", k.2)

theorem spaceKey_inj {k k' : String × Nat} (h : spaceKey k = spaceKey k') :
    k = k' := by
  obtain ⟨s, n⟩ := k
  obtain ⟨s', n'⟩ := k'
  simp only [spaceKey, Prod.mk.injEq] at h
  obtain ⟨hs, hn⟩ := h
  have : s.data = s'.data := by
    have h2 := congrArg String.data hs
    simpa using h2
  exact by simp [String.ext this, hn]

theorem lowerStr_append_space (s : String) :
    lowerStr (s ++ " ") = lowerStr s ++ " " := by
  apply String.ext
  show lowerChars (s ++ " ").data = (lowerStr s ++ " ").data
  simp [lowerChars, lowerStr]
  rfl

theorem eKey_mkEntry (off : Nat) (h : Heading) :
    eKey (mkEntry off h) = spaceKey (mkKey off h) := by
  simp [eKey, mkEntry, spaceKey, mkKey, lowerStr_append_space]

/-- Every emitted entry is `mkEntry` of the first input heading carrying
its key that is not already in `seen`. -/
theorem finalizePass_mem_spec (off : Nat) :
    ∀ (l : List Heading) (seen : List (String × Nat)) (e : OutlineEntry),
      e ∈ finalizePass off l seen →
      ∃ l₁ h l₂, l = l₁ ++ h :: l₂ ∧ e = mkEntry off h ∧ mkKey off h ∉ seen ∧
        ∀ h' ∈ l₁, mkKey off h' ≠ mkKey off h := by
  intro l
  induction l with
  | nil => intro seen e he; simp [finalizePass] at he
  | cons h t ih =>
    intro seen e he
    simp only [finalizePass] at he
    by_cases hk : mkKey off h ∈ seen
    · rw [if_pos hk] at he
      obtain ⟨l₁, h₀, l₂, hl, hee, hnot, hfirst⟩ := ih seen e he
      refine ⟨h :: l₁, h₀, l₂, by rw [hl]; rfl, hee, hnot, ?_⟩
      intro h' hh'
      rcases List.mem_cons.mp hh' with rfl | hh'
      · exact fun hc => hnot (hc ▸ hk)
      · exact hfirst h' hh'
    · rw [if_neg hk] at he
      rcases List.mem_cons.mp he with rfl | he
      · exact ⟨[], h, t, rfl, rfl, hk, by simp⟩
      · obtain ⟨l₁, h₀, l₂, hl, hee, hnot, hfirst⟩ := ih _ e he
        have hnot' : mkKey off h₀ ∉ seen := fun hc => hnot (by simp [hc])
        have hne : mkKey off h ≠ mkKey off h₀ := fun hc => hnot (by simp [hc])
        refine ⟨h :: l₁, h₀, l₂, by rw [hl]; rfl, hee, hnot', ?_⟩
        intro h' hh'
        rcases List.mem_cons.mp hh' with rfl | hh'
        · exact hne
        · exact hfirst h' hh'

/-- Every input heading's key is either already in `seen` or represented
by some emitted entry. -/
theorem finalizePass_covers (off : Nat) :
    ∀ (l : List Heading) (seen : List (String × Nat)) (h : Heading), h ∈ l →
      mkKey off h ∈ seen ∨
        ∃ h', mkEntry off h' ∈ finalizePass off l seen ∧
          mkKey off h' = mkKey off h := by
  intro l
  induction l with
  | nil => intro _ _ hh; simp at hh
  | cons h₀ t ih =>
    intro seen h hh
    simp only [finalizePass]
    by_cases hk : mkKey off h₀ ∈ seen
    · rw [if_pos hk]
      rcases List.mem_cons.mp hh with rfl | hh
      · exact Or.inl hk
      · exact ih seen h hh
    · rw [if_neg hk]
      rcases List.mem_cons.mp hh with rfl | hh
      · exact Or.inr ⟨h, List.mem_cons_self _ _, rfl⟩
      · rcases ih (mkKey off h₀ :: seen) h hh with hmem | ⟨h', he', hk'⟩
        · rcases List.mem_cons.mp hmem with heq | hmem
          · exact Or.inr ⟨h₀, List.mem_cons_self _ _, heq.symm⟩
          · exact Or.inl hmem
        · exact Or.inr ⟨h', List.mem_cons_of_mem _ he', hk'⟩

/-- The emitted entries carry pairwise-distinct keys, none of them from
`seen`. -/
theorem finalizePass_keys (off : Nat) :
    ∀ (l : List Heading) (seen : List (String × Nat)),
      ((finalizePass off l seen).map eKey).Nodup ∧
      ∀ e ∈ finalizePass off l seen, ∀ k ∈ seen, eKey e ≠ spaceKey k := by
  intro l
  induction l with
  | nil => intro seen; simp [finalizePass]
  | cons h t ih =>
    intro seen
    simp only [finalizePass]
    by_cases hk : mkKey off h ∈ seen
    · rw [if_pos hk]
      exact ih seen
    · rw [if_neg hk]
      obtain ⟨ihn, ihs⟩ := ih (mkKey off h :: seen)
      constructor
      · rw [List.map_cons, List.nodup_cons]
        refine ⟨?_, ihn⟩
        intro hc
        rcases List.mem_map.mp hc with ⟨e, hemem, hekey⟩
        have := ihs e hemem (mkKey off h) (List.mem_cons_self _ _)
        rw [hekey, eKey_mkEntry] at this
        exact this rfl
      · intro e hemem k hkmem
        rcases List.mem_cons.mp hemem with rfl | hemem
        · rw [eKey_mkEntry]
          intro hc
          exact hk (spaceKey_inj hc ▸ hkmem)
        · exact ihs e hemem k (List.mem_cons_of_mem _ hkmem)

/-- A heading surviving the merge pass keeps the page, level and
vertical position of an input heading (only the text may change). -/
theorem mergePassPP_mem : ∀ (l : List Heading), ∀ h' ∈ mergePassPP l,
    ∃ h, h ∈ l ∧ h'.page = h.page ∧ h'.level = h.level ∧ h'.y0 = h.y0
  | [] => by simp [mergePassPP]
  | [h] => by
    intro h' hh'
    simp only [mergePassPP, List.mem_singleton] at hh'
    exact ⟨h, by simp [hh']⟩
  | h1 :: h2 :: rest => by
    intro h' hh'
    simp only [mergePassPP] at hh'
    split at hh'
    · rcases List.mem_cons.mp hh' with heq | hh'
      · exact ⟨h1, by simp, by simp [heq], by simp [heq], by simp [heq]⟩
      · obtain ⟨h, hmem, hp⟩ := mergePassPP_mem rest h' hh'
        exact ⟨h, by simp [hmem], hp⟩
    · rcases List.mem_cons.mp hh' with heq | hh'
      · exact ⟨h1, by simp, by simp [heq], by simp [heq], by simp [heq]⟩
      · obtain ⟨h, hmem, hp⟩ := mergePassPP_mem (h2 :: rest) h' hh'
        exact ⟨h, by simp [List.mem_cons.mp hmem], hp⟩

theorem mergePassOE_mem : ∀ (l : List Heading), ∀ h' ∈ mergePassOE l,
    ∃ h, h ∈ l ∧ h'.page = h.page ∧ h'.level = h.level ∧ h'.y0 = h.y0
  | [] => by simp [mergePassOE]
  | [h] => by
    intro h' hh'
    simp only [mergePassOE, List.mem_singleton] at hh'
    exact ⟨h, by simp [hh']⟩
  | h1 :: h2 :: rest => by
    intro h' hh'
    simp only [mergePassOE] at hh'
    split at hh'
    · rcases List.mem_cons.mp hh' with heq | hh'
      · exact ⟨h1, by simp, by simp [heq], by simp [heq], by simp [heq]⟩
      · obtain ⟨h, hmem, hp⟩ := mergePassOE_mem rest h' hh'
        exact ⟨h, by simp [hmem], hp⟩
    · rcases List.mem_cons.mp hh' with heq | hh'
      · exact ⟨h1, by simp, by simp [heq], by simp [heq], by simp [heq]⟩
      · obtain ⟨h, hmem, hp⟩ := mergePassOE_mem (h2 :: rest) h' hh'
        exact ⟨h, by simp [List.mem_cons.mp hmem], hp⟩

/-! ## Structural matcher lemmas -/

theorem run_split {d : List Char} (hd : ∀ a ∈ d, isNumCh a = true) {s : Char}
    (hs : isNumCh s = false) (rest : List Char) :
    (d ++ s :: rest).takeWhile isNumCh = d ∧
      (d ++ s :: rest).dropWhile isNumCh = s :: rest := by
  constructor
  · rw [takeWhile_append_all hd, takeWhile_cons_false hs, List.append_nil]
  · rw [dropWhile_append_all hd, dropWhile_cons_false hs]

theorem ne_nil_isEmpty_false {l : List Char} (h : l ≠ []) : l.isEmpty = false := by
  rw [List.isEmpty_eq_false]
  exact h

theorem matchH1PP_true_parts {cs : List Char} {s w : Char} {r : List Char}
    (hne : cs.takeWhile isNumCh ≠ [])
    (hdr : cs.dropWhile isNumCh = s :: w :: r)
    (hs : isSepCh s = true) (hw : isWS w = true) : matchH1PP cs = true := by
  unfold matchH1PP
  rw [hdr, ne_nil_isEmpty_false hne]
  simp [hs, hw]

theorem matchH1PP_false_head {cs : List Char} {s w : Char} {r : List Char}
    (hdr : cs.dropWhile isNumCh = s :: w :: r) (hw : isWS w = false) :
    matchH1PP cs = false := by
  unfold matchH1PP
  rw [hdr]
  simp [hw]

theorem matchH2PP_true_parts {cs r2 : List Char} {w : Char} {r3 : List Char}
    (hne : cs.takeWhile isNumCh ≠ [])
    (hdr : cs.dropWhile isNumCh = '.' :: r2)
    (hne2 : r2.takeWhile isNumCh ≠ [])
    (hdr2 : r2.dropWhile isNumCh = w :: r3) (hw : isWS w = true) :
    matchH2PP cs = true := by
  unfold matchH2PP
  simp [hdr, hdr2, ne_nil_isEmpty_false hne, ne_nil_isEmpty_false hne2, hw]

theorem matchH2PP_false_dot {cs r2 : List Char} {w : Char} {r3 : List Char}
    (hdr : cs.dropWhile isNumCh = '.' :: r2)
    (hdr2 : r2.dropWhile isNumCh = w :: r3) (hw : isWS w = false) :
    matchH2PP cs = false := by
  unfold matchH2PP
  simp [hdr, hdr2, hw]

theorem matchH3PP_true_parts {cs r2 r3 : List Char} {w : Char} {r4 : List Char}
    (hne : cs.takeWhile isNumCh ≠ [])
    (hdr : cs.dropWhile isNumCh = '.' :: r2)
    (hne2 : r2.takeWhile isNumCh ≠ [])
    (hdr2 : r2.dropWhile isNumCh = '.' :: r3)
    (hne3 : r3.takeWhile isNumCh ≠ [])
    (hdr3 : r3.dropWhile isNumCh = w :: r4) (hw : isWS w = true) :
    matchH3PP cs = true := by
  unfold matchH3PP
  simp [hdr, hdr2, hdr3, ne_nil_isEmpty_false hne, ne_nil_isEmpty_false hne2,
    ne_nil_isEmpty_false hne3, hw]

theorem matchH3PP_false_dot {cs r2 r3 : List Char} {w : Char} {r4 : List Char}
    (hdr : cs.dropWhile isNumCh = '.' :: r2)
    (hdr2 : r2.dropWhile isNumCh = '.' :: r3)
    (hdr3 : r3.dropWhile isNumCh = w :: r4) (hw : isWS w = false) :
    matchH3PP cs = false := by
  unfold matchH3PP
  simp [hdr, hdr2, hdr3, hw]

theorem structuralLevelPP_ite (cs : List Char) :
    structuralLevelPP cs =
      if matchH1PP cs = true then some "H1"
      else if matchH2PP cs = true then some "H2"
      else if matchH3PP cs = true then some "H3"
      else none := rfl

theorem structuralLevelPP_H1 {d : List Char} (hd : ∀ a ∈ d, isNumCh a = true)
    (hne : d ≠ []) {s w : Char} (hs : isSepCh s = true) (hw : isWS w = true)
    (rest : List Char) : structuralLevelPP (d ++ s :: w :: rest) = some "H1" := by
  obtain ⟨ht, hdr⟩ := run_split hd (sep_not_num hs) (w :: rest)
  rw [structuralLevelPP_ite,
    matchH1PP_true_parts (by rw [ht]; exact hne) hdr hs hw]
  simp

theorem structuralLevelPP_H2 {d1 d2 : List Char}
    (hd1 : ∀ a ∈ d1, isNumCh a = true) (hne1 : d1 ≠ [])
    (hd2 : ∀ a ∈ d2, isNumCh a = true) (hne2 : d2 ≠ [])
    {w : Char} (hw : isWS w = true) (rest : List Char) :
    structuralLevelPP (d1 ++ '.' :: (d2 ++ w :: rest)) = some "H2" := by
  obtain ⟨a2, d2', rfl⟩ := List.exists_cons_of_ne_nil hne2
  obtain ⟨ht1, hdr1⟩ :=
    run_split hd1 (show isNumCh '.' = false by decide) ((a2 :: d2') ++ w :: rest)
  obtain ⟨ht2, hdr2⟩ := run_split hd2 (ws_not_num hw) rest
  rw [structuralLevelPP_ite,
    matchH1PP_false_head (by rw [hdr1]; rfl) (num_not_ws (hd2 a2 (by simp))),
    matchH2PP_true_parts (by rw [ht1]; exact hne1) hdr1
      (by rw [ht2]; simp) hdr2 hw]
  simp

theorem structuralLevelPP_H3 {d1 d2 d3 : List Char}
    (hd1 : ∀ a ∈ d1, isNumCh a = true) (hne1 : d1 ≠ [])
    (hd2 : ∀ a ∈ d2, isNumCh a = true) (hne2 : d2 ≠ [])
    (hd3 : ∀ a ∈ d3, isNumCh a = true) (hne3 : d3 ≠ [])
    {w : Char} (hw : isWS w = true) (rest : List Char) :
    structuralLevelPP (d1 ++ '.' :: (d2 ++ '.' :: (d3 ++ w :: rest)))
      = some "H3" := by
  obtain ⟨a2, d2', rfl⟩ := List.exists_cons_of_ne_nil hne2
  obtain ⟨a3, d3', rfl⟩ := List.exists_cons_of_ne_nil hne3
  obtain ⟨ht1, hdr1⟩ :=
    run_split hd1 (show isNumCh '.' = false by decide)
      ((a2 :: d2') ++ '.' :: ((a3 :: d3') ++ w :: rest))
  obtain ⟨ht2, hdr2⟩ :=
    run_split hd2 (show isNumCh '.' = false by decide) ((a3 :: d3') ++ w :: rest)
  obtain ⟨ht3, hdr3⟩ := run_split hd3 (ws_not_num hw) rest
  rw [structuralLevelPP_ite,
    matchH1PP_false_head (by rw [hdr1]; rfl) (num_not_ws (hd2 a2 (by simp))),
    matchH2PP_false_dot hdr1 hdr2 (by decide),
    matchH3PP_true_parts (by rw [ht1]; exact hne1) hdr1 (by rw [ht2]; simp)
      hdr2 (by rw [ht3]; simp) hdr3 hw]
  simp

theorem structuralLevelPP_deep {d1 d2 d3 d4 : List Char}
    (hd1 : ∀ a ∈ d1, isNumCh a = true) (hne1 : d1 ≠ [])
    (hd2 : ∀ a ∈ d2, isNumCh a = true) (hne2 : d2 ≠ [])
    (hd3 : ∀ a ∈ d3, isNumCh a = true) (hne3 : d3 ≠ [])
    (hd4 : ∀ a ∈ d4, isNumCh a = true) (hne4 : d4 ≠ [])
    (rest : List Char) :
    structuralLevelPP (d1 ++ '.' :: (d2 ++ '.' :: (d3 ++ '.' :: (d4 ++ rest))))
      = none := by
  obtain ⟨a2, d2', rfl⟩ := List.exists_cons_of_ne_nil hne2
  obtain ⟨a3, d3', rfl⟩ := List.exists_cons_of_ne_nil hne3
  obtain ⟨a4, d4', rfl⟩ := List.exists_cons_of_ne_nil hne4
  obtain ⟨ht1, hdr1⟩ :=
    run_split hd1 (show isNumCh '.' = false by decide)
      ((a2 :: d2') ++ '.' :: ((a3 :: d3') ++ '.' :: ((a4 :: d4') ++ rest)))
  obtain ⟨ht2, hdr2⟩ :=
    run_split hd2 (show isNumCh '.' = false by decide)
      ((a3 :: d3') ++ '.' :: ((a4 :: d4') ++ rest))
  obtain ⟨ht3, hdr3⟩ :=
    run_split hd3 (show isNumCh '.' = false by decide) ((a4 :: d4') ++ rest)
  rw [structuralLevelPP_ite,
    matchH1PP_false_head (by rw [hdr1]; rfl) (num_not_ws (hd2 a2 (by simp))),
    matchH2PP_false_dot hdr1 hdr2 (by decide),
    matchH3PP_false_dot hdr1 hdr2 hdr3 (by decide)]
  simp

theorem segsT_run {d : List Char} (hd : ∀ a ∈ d, isNumCh a = true) :
    ∀ (rest : List Char) (n : Nat), segsT (d ++ rest) n = segsT rest n := by
  induction d with
  | nil => intro rest n; rfl
  | cons a t ih =>
    intro rest n
    rw [show (a :: t) ++ rest = a :: (t ++ rest) from rfl, segsT.eq_def]
    simp only [hd a (by simp), if_true]
    exact ih (fun b hb => hd b (by simp [hb])) rest n

theorem segsT_dot_digit {a : Char} (ha : isNumCh a = true)
    (rest2 : List Char) (n : Nat) :
    segsT ('.' :: a :: rest2) n = segsT rest2 (n + 1) := by
  rw [segsT.eq_def]
  simp [ha, show isNumCh '.' = false from by decide]

theorem segsT_stop {c : Char} (hc : isNumCh c = false) (hdot : c ≠ '.')
    (rest : List Char) (n : Nat) : segsT (c :: rest) n = (n, c :: rest) := by
  rw [segsT.eq_def]
  simp [hc, hdot]

theorem segsT_dot_head {c : Char} (hc : isNumCh c = false) (rest : List Char)
    (n : Nat) : segsT ('.' :: c :: rest) n = (n, '.' :: c :: rest) := by
  rw [segsT.eq_def]
  simp [hc, show isNumCh '.' = false from by decide]

theorem wsTailOK_parts {w c : Char} (hw : isWS w = true) (hc : c ≠ '\n')
    (rest : List Char) : wsTailOK (w :: c :: rest) = true := by
  have hd : List.dropWhile (fun x => decide (x = '\n')) (c :: rest) = c :: rest :=
    dropWhile_cons_false (by simp [hc])
  simp [wsTailOK, hw, hd]

theorem ws_ne_dot {w : Char} (hw : isWS w = true) : w ≠ '.' := by
  intro hc
  subst hc
  exact absurd hw (by decide)

theorem numberedOE_run {d : List Char} (hd : ∀ a ∈ d, isNumCh a = true)
    (hne : d ≠ []) (X : List Char) :
    numberedOE (d ++ X) = (if wsTailOK (segsT X 1).2 then some (segsT X 1).1
      else none) := by
  obtain ⟨a, d', rfl⟩ := List.exists_cons_of_ne_nil hne
  rw [show (a :: d') ++ X = a :: (d' ++ X) from rfl, numberedOE.eq_def]
  simp [hd a (by simp),
    segsT_run (d := d') (fun b hb => hd b (List.mem_cons_of_mem a hb))]

theorem numberedOE_seg1 {d1 : List Char} (hd1 : ∀ a ∈ d1, isNumCh a = true)
    (hne1 : d1 ≠ []) {w c : Char} (hw : isWS w = true) (hc : c ≠ '\n')
    (rest : List Char) : numberedOE (d1 ++ w :: c :: rest) = some 1 := by
  rw [numberedOE_run hd1 hne1,
    segsT_stop (ws_not_num hw) (ws_ne_dot hw)]
  simp [wsTailOK_parts hw hc]

theorem numberedOE_seg2 {d1 d2 : List Char}
    (hd1 : ∀ a ∈ d1, isNumCh a = true) (hne1 : d1 ≠ [])
    (hd2 : ∀ a ∈ d2, isNumCh a = true) (hne2 : d2 ≠ [])
    {w c : Char} (hw : isWS w = true) (hc : c ≠ '\n') (rest : List Char) :
    numberedOE (d1 ++ '.' :: (d2 ++ w :: c :: rest)) = some 2 := by
  obtain ⟨a2, d2', rfl⟩ := List.exists_cons_of_ne_nil hne2
  rw [numberedOE_run hd1 hne1,
    show '.' :: ((a2 :: d2') ++ w :: c :: rest)
      = '.' :: a2 :: (d2' ++ w :: c :: rest) from rfl,
    segsT_dot_digit (hd2 a2 (by simp)),
    segsT_run (fun b hb => hd2 b (by simp [hb])),
    segsT_stop (ws_not_num hw) (ws_ne_dot hw)]
  simp [wsTailOK_parts hw hc]

theorem numberedOE_seg3 {d1 d2 d3 : List Char}
    (hd1 : ∀ a ∈ d1, isNumCh a = true) (hne1 : d1 ≠ [])
    (hd2 : ∀ a ∈ d2, isNumCh a = true) (hne2 : d2 ≠ [])
    (hd3 : ∀ a ∈ d3, isNumCh a = true) (hne3 : d3 ≠ [])
    {w c : Char} (hw : isWS w = true) (hc : c ≠ '\n') (rest : List Char) :
    numberedOE (d1 ++ '.' :: (d2 ++ '.' :: (d3 ++ w :: c :: rest)))
      = some 3 := by
  obtain ⟨a2, d2', rfl⟩ := List.exists_cons_of_ne_nil hne2
  obtain ⟨a3, d3', rfl⟩ := List.exists_cons_of_ne_nil hne3
  rw [numberedOE_run hd1 hne1,
    show '.' :: ((a2 :: d2') ++ '.' :: ((a3 :: d3') ++ w :: c :: rest))
      = '.' :: a2 :: (d2' ++ '.' :: ((a3 :: d3') ++ w :: c :: rest)) from rfl,
    segsT_dot_digit (hd2 a2 (by simp)),
    segsT_run (fun b hb => hd2 b (by simp [hb])),
    show '.' :: ((a3 :: d3') ++ w :: c :: rest)
      = '.' :: a3 :: (d3' ++ w :: c :: rest) from rfl,
    segsT_dot_digit (hd3 a3 (by simp)),
    segsT_run (fun b hb => hd3 b (by simp [hb])),
    segsT_stop (ws_not_num hw) (ws_ne_dot hw)]
  simp [wsTailOK_parts hw hc]

theorem numberedOE_seg4 {d1 d2 d3 d4 : List Char}
    (hd1 : ∀ a ∈ d1, isNumCh a = true) (hne1 : d1 ≠ [])
    (hd2 : ∀ a ∈ d2, isNumCh a = true) (hne2 : d2 ≠ [])
    (hd3 : ∀ a ∈ d3, isNumCh a = true) (hne3 : d3 ≠ [])
    (hd4 : ∀ a ∈ d4, isNumCh a = true) (hne4 : d4 ≠ [])
    {w c : Char} (hw : isWS w = true) (hc : c ≠ '\n') (rest : List Char) :
    numberedOE (d1 ++ '.' :: (d2 ++ '.' :: (d3 ++ '.' :: (d4 ++ w :: c :: rest))))
      = some 4 := by
  obtain ⟨a2, d2', rfl⟩ := List.exists_cons_of_ne_nil hne2
  obtain ⟨a3, d3', rfl⟩ := List.exists_cons_of_ne_nil hne3
  obtain ⟨a4, d4', rfl⟩ := List.exists_cons_of_ne_nil hne4
  rw [numberedOE_run hd1 hne1,
    show '.' :: ((a2 :: d2') ++ '.' :: ((a3 :: d3') ++ '.' :: ((a4 :: d4') ++ w :: c :: rest)))
      = '.' :: a2 :: (d2' ++ '.' :: ((a3 :: d3') ++ '.' :: ((a4 :: d4') ++ w :: c :: rest))) from rfl,
    segsT_dot_digit (hd2 a2 (by simp)),
    segsT_run (fun b hb => hd2 b (by simp [hb])),
    show '.' :: ((a3 :: d3') ++ '.' :: ((a4 :: d4') ++ w :: c :: rest))
      = '.' :: a3 :: (d3' ++ '.' :: ((a4 :: d4') ++ w :: c :: rest)) from rfl,
    segsT_dot_digit (hd3 a3 (by simp)),
    segsT_run (fun b hb => hd3 b (by simp [hb])),
    show '.' :: ((a4 :: d4') ++ w :: c :: rest)
      = '.' :: a4 :: (d4' ++ w :: c :: rest) from rfl,
    segsT_dot_digit (hd4 a4 (by simp)),
    segsT_run (fun b hb => hd4 b (by simp [hb])),
    segsT_stop (ws_not_num hw) (ws_ne_dot hw)]
  simp [wsTailOK_parts hw hc]

theorem numberedOE_dot_ws {d1 : List Char} (hd1 : ∀ a ∈ d1, isNumCh a = true)
    (hne1 : d1 ≠ []) {w : Char} (hw : isWS w = true) (rest : List Char) :
    numberedOE (d1 ++ '.' :: w :: rest) = none := by
  rw [numberedOE_run hd1 hne1, segsT_dot_head (ws_not_num hw)]
  simp [wsTailOK, show isWS '.' = false from by decide]

theorem numberedRuleOE_seg1 {d1 : List Char} (hd1 : ∀ a ∈ d1, isNumCh a = true)
    (hne1 : d1 ≠ []) {w c : Char} (hw : isWS w = true) (hc : c ≠ '\n')
    (rest : List Char) : numberedRuleOE (d1 ++ w :: c :: rest) = some "H1" := by
  unfold numberedRuleOE
  rw [numberedOE_seg1 hd1 hne1 hw hc]
  decide

theorem numberedRuleOE_seg2 {d1 d2 : List Char}
    (hd1 : ∀ a ∈ d1, isNumCh a = true) (hne1 : d1 ≠ [])
    (hd2 : ∀ a ∈ d2, isNumCh a = true) (hne2 : d2 ≠ [])
    {w c : Char} (hw : isWS w = true) (hc : c ≠ '\n') (rest : List Char) :
    numberedRuleOE (d1 ++ '.' :: (d2 ++ w :: c :: rest)) = some "H2" := by
  unfold numberedRuleOE
  rw [numberedOE_seg2 hd1 hne1 hd2 hne2 hw hc]
  decide

theorem numberedRuleOE_seg3 {d1 d2 d3 : List Char}
    (hd1 : ∀ a ∈ d1, isNumCh a = true) (hne1 : d1 ≠ [])
    (hd2 : ∀ a ∈ d2, isNumCh a = true) (hne2 : d2 ≠ [])
    (hd3 : ∀ a ∈ d3, isNumCh a = true) (hne3 : d3 ≠ [])
    {w c : Char} (hw : isWS w = true) (hc : c ≠ '\n') (rest : List Char) :
    numberedRuleOE (d1 ++ '.' :: (d2 ++ '.' :: (d3 ++ w :: c :: rest)))
      = some "H3" := by
  unfold numberedRuleOE
  rw [numberedOE_seg3 hd1 hne1 hd2 hne2 hd3 hne3 hw hc]
  decide

theorem numberedRuleOE_seg4 {d1 d2 d3 d4 : List Char}
    (hd1 : ∀ a ∈ d1, isNumCh a = true) (hne1 : d1 ≠ [])
    (hd2 : ∀ a ∈ d2, isNumCh a = true) (hne2 : d2 ≠ [])
    (hd3 : ∀ a ∈ d3, isNumCh a = true) (hne3 : d3 ≠ [])
    (hd4 : ∀ a ∈ d4, isNumCh a = true) (hne4 : d4 ≠ [])
    {w c : Char} (hw : isWS w = true) (hc : c ≠ '\n') (rest : List Char) :
    numberedRuleOE (d1 ++ '.' :: (d2 ++ '.' :: (d3 ++ '.' :: (d4 ++ w :: c :: rest))))
      = none := by
  unfold numberedRuleOE
  rw [numberedOE_seg4 hd1 hne1 hd2 hne2 hd3 hne3 hd4 hne4 hw hc]
  decide

theorem numberedRuleOE_dot_ws {d1 : List Char}
    (hd1 : ∀ a ∈ d1, isNumCh a = true) (hne1 : d1 ≠ [])
    {w : Char} (hw : isWS w = true) (rest : List Char) :
    numberedRuleOE (d1 ++ '.' :: w :: rest) = none := by
  unfold numberedRuleOE
  rw [numberedOE_dot_ws hd1 hne1 hw]

theorem insertH_mem {x y : Heading} : ∀ {l : List Heading},
    (y ∈ insertH x l ↔ y = x ∨ y ∈ l)
  | [] => by simp [insertH]
  | z :: zs => by
    simp only [insertH]
    split
    · rw [List.mem_cons, insertH_mem, List.mem_cons]
      tauto
    · exact List.mem_cons

theorem sortHeadings_mem {y : Heading} : ∀ {l : List Heading},
    (y ∈ sortHeadings l ↔ y ∈ l)
  | [] => Iff.rfl
  | x :: xs => by
    simp only [sortHeadings]
    rw [insertH_mem, sortHeadings_mem, List.mem_cons]

/-- An already-sorted three-element list is left unchanged by the
stable insertion sort. -/
theorem sortHeadings_three {h1 h2 h3 : Heading}
    (h12 : ¬ hLT h2 h1) (h23 : ¬ hLT h3 h2) :
    sortHeadings [h1, h2, h3] = [h1, h2, h3] := by
  have e2 : insertH h2 [h3] = [h2, h3] := by
    simp only [insertH]
    rw [if_neg h23]
  have e1 : insertH h1 [h2, h3] = [h1, h2, h3] := by
    simp only [insertH]
    rw [if_neg h12]
  show insertH h1 (insertH h2 (insertH h3 (sortHeadings []))) = _
  rw [show sortHeadings ([] : List Heading) = [] from rfl,
    show insertH h3 [] = [h3] from rfl, e2, e1]

theorem sortHeadings_pair {h1 h2 : Heading} (h12 : ¬ hLT h2 h1) :
    sortHeadings [h1, h2] = [h1, h2] := by
  have e1 : insertH h1 [h2] = [h1, h2] := by
    simp only [insertH]
    rw [if_neg h12]
  show insertH h1 (insertH h2 (sortHeadings [])) = _
  rw [show sortHeadings ([] : List Heading) = [] from rfl,
    show insertH h2 [] = [h2] from rfl, e1]

/-- The dedup loop on two headings with distinct keys keeps both. -/
theorem finalizePass_pair (off : Nat) {a b : Heading}
    (hne : mkKey off b ≠ mkKey off a) :
    finalizePass off [a, b] [] = [mkEntry off a, mkEntry off b] := by
  simp only [finalizePass]
  rw [if_neg (by simp), if_neg (by simp [hne])]

/-- Decomposition of a string matched by `^[0-9０-９०-९]+[.．、]`. -/
theorem startsNumSep_decomp {cs : List Char} (h : startsNumSep cs = true) :
    ∃ D s rest, cs = D ++ s :: rest ∧ D ≠ [] ∧
      (∀ a ∈ D, isNumCh a = true) ∧ isSepCh s = true := by
  unfold startsNumSep at h
  cases hdrop : cs.dropWhile isNumCh with
  | nil =>
    rw [hdrop] at h
    simp at h
  | cons s rest =>
    rw [hdrop] at h
    refine ⟨cs.takeWhile isNumCh, s, rest, ?_, ?_,
      fun a ha => List.mem_takeWhile_imp ha, ?_⟩
    · rw [← hdrop]
      exact (List.takeWhile_append_dropWhile _ _).symm
    · intro hc
      rw [hc] at h
      simp at h
    · rcases Bool.and_eq_true_iff.mp h with ⟨_, h2⟩
      exact h2

theorem startsNumSep_head {cs : List Char} (h : startsNumSep cs = true) :
    ∃ a t', cs = a :: t' ∧ isNumCh a = true := by
  cases cs with
  | nil => simp [startsNumSep] at h
  | cons a t' =>
    by_cases ha : isNumCh a = true
    · exact ⟨a, t', rfl, ha⟩
    · rw [Bool.not_eq_true] at ha
      unfold startsNumSep at h
      rw [takeWhile_cons_false ha] at h
      simp at h

/-- `str.strip()` keeps the numbered-stub shape. -/
theorem startsNumSep_strip {cs : List Char} (h : startsNumSep cs = true) :
    startsNumSep (stripWS cs) = true := by
  obtain ⟨D, s, rest, rfl, hDne, hDnum, hsep⟩ := startsNumSep_decomp h
  obtain ⟨a, D', rfl⟩ := List.exists_cons_of_ne_nil hDne
  have hdw : ((a :: D') ++ s :: rest).dropWhile isWS = (a :: D') ++ s :: rest := by
    rw [show (a :: D') ++ s :: rest = a :: (D' ++ s :: rest) from rfl]
    exact dropWhile_cons_false (num_not_ws (hDnum a (by simp)))
  obtain ⟨u', hbs⟩ := backStrip_cons_nonws (sep_not_ws hsep) rest
  rw [stripWS_eq_backStrip, hdw,
    backStrip_append_nonempty (by rw [hbs]; exact List.cons_ne_nil _ _), hbs]
  obtain ⟨ht, hdr⟩ := run_split hDnum (sep_not_num hsep) u'
  unfold startsNumSep
  rw [ht, hdr]
  simp [hsep]

/-- Appending anything keeps the numbered-stub shape. -/
theorem startsNumSep_append {a b : List Char} (h : startsNumSep a = true) :
    startsNumSep (a ++ b) = true := by
  obtain ⟨D, s, rest, rfl, hDne, hDnum, hsep⟩ := startsNumSep_decomp h
  rw [show (D ++ s :: rest) ++ b = D ++ s :: (rest ++ b) from by simp]
  obtain ⟨ht, hdr⟩ := run_split hDnum (sep_not_num hsep) (rest ++ b)
  unfold startsNumSep
  rw [ht, hdr]
  simp [ne_nil_isEmpty_false hDne, hsep]

theorem startsNumSep_lower_norm {cs : List Char} {c0 : Char} {t : List Char}
    (hcs : cs = c0 :: t) (h0 : isWS c0 = false) :
    startsNumSep (lowerChars (normChars cs)) = startsNumSep cs := by
  subst hcs
  rw [startsNumSep_lower, startsNumSep_norm h0]

theorem oeNumbered_lower_norm {cs : List Char} {c0 : Char} {t : List Char}
    (hcs : cs = c0 :: t) (h0 : isWS c0 = false) :
    oeNumbered (lowerChars (normChars cs)) = oeNumbered cs := by
  subst hcs
  rw [oeNumbered_lower, oeNumbered_norm h0]

/-- Two headings cannot share a dedup key when one's cleaned text starts
with a numbered stub and the other's (whitespace-normalized, per the
LogicalLine invariant) does not. -/
theorem mkKey_ne_numsep (off : Nat) {m h3 : Heading}
    (hm : startsNumSep m.text.data = true)
    {c0 : Char} {t0 : List Char} (h3d : h3.text.data = c0 :: t0)
    (h3w : isWS c0 = false) (h3n : startsNumSep h3.text.data = false) :
    mkKey off m ≠ mkKey off h3 := by
  intro hc
  have h1 : lowerChars (normChars m.text.data)
      = lowerChars (normChars h3.text.data) := by
    have h2 := congrArg (fun k => k.1.data) hc
    simpa [mkKey, lowerStr, normWS] using h2
  obtain ⟨a, t', hmd, ha⟩ := startsNumSep_head hm
  have hsm : startsNumSep (lowerChars (normChars m.text.data)) = true := by
    rw [startsNumSep_lower_norm hmd (num_not_ws ha)]
    exact hm
  have hs3 : startsNumSep (lowerChars (normChars h3.text.data)) = false := by
    rw [startsNumSep_lower_norm h3d h3w]
    exact h3n
  rw [h1, hs3] at hsm
  exact absurd hsm (by simp)

theorem oeStub_parts {cs : List Char} (h : oeStub cs = true) :
    ∃ c1 c3 r, cs = c1 :: '.' :: c3 :: r ∧ isNumCh c1 = true ∧
      isWS c3 = true := by
  match cs with
  | [] => simp [oeStub] at h
  | [c1] => simp [oeStub] at h
  | [c1, c2] => simp [oeStub] at h
  | c1 :: c2 :: c3 :: r =>
    simp only [oeStub, Bool.and_eq_true, decide_eq_true_eq] at h
    obtain ⟨⟨h1, h2⟩, h3⟩ := h
    exact ⟨c1, c3, r, by rw [h2], h1, h3⟩

theorem replDash_cons_ne_space {c : Char} (hc : c ≠ ' ') :
    ∀ cs, ∃ u, replDash (c :: cs) = c :: u := by
  intro cs
  match cs with
  | [] => exact ⟨[], rfl⟩
  | [c2] => exact ⟨replDash [c2], rfl⟩
  | c2 :: c3 :: rest =>
    refine ⟨replDash (c2 :: c3 :: rest), ?_⟩
    simp only [replDash]
    rw [if_neg (fun hand => hc hand.1)]

/-- The OE merged text starts with `digit '.'`, hence is "numbered" for
the merge scan. -/
theorem oeNumbered_merged {t1 t2 : List Char} (h1 : oeStub t1 = true) :
    oeNumbered (replDash t1 ++ t2) = true := by
  obtain ⟨c1, c3, r, rfl, hn1, hw3⟩ := oeStub_parts h1
  have hc1 : c1 ≠ ' ' := by
    intro hc
    subst hc
    exact absurd hn1 (by decide)
  have hrepl : replDash (c1 :: '.' :: c3 :: r)
      = c1 :: '.' :: replDash (c3 :: r) := by
    rw [show replDash (c1 :: '.' :: c3 :: r)
        = c1 :: replDash ('.' :: c3 :: r) from by
      simp only [replDash]
      rw [if_neg (fun hand => hc1 hand.1)]]
    congr 1
    match r with
    | [] => rfl
    | r0 :: r' =>
      simp only [replDash]
      rw [if_neg (fun hand => absurd hand.1 (by decide))]
  rw [hrepl]
  simp [oeNumbered, hn1]

/-- The PP merged text keeps the numbered-stub shape. -/
theorem startsNumSep_mergedPP {t1 t2 : List Char}
    (h1 : startsNumSep t1 = true) :
    startsNumSep (stripWS t1 ++ (' ' :: stripWS t2)) = true :=
  startsNumSep_append (startsNumSep_strip h1)

theorem mkKey_ne_oeNumbered (off : Nat) {m h3 : Heading}
    (hm : oeNumbered m.text.data = true)
    {cm : Char} {tm : List Char} (hmd : m.text.data = cm :: tm)
    (hmw : isWS cm = false)
    {c0 : Char} {t0 : List Char} (h3d : h3.text.data = c0 :: t0)
    (h3w : isWS c0 = false) (h3n : oeNumbered h3.text.data = false) :
    mkKey off m ≠ mkKey off h3 := by
  intro hc
  have h1 : lowerChars (normChars m.text.data)
      = lowerChars (normChars h3.text.data) := by
    have h2 := congrArg (fun k => k.1.data) hc
    simpa [mkKey, lowerStr, normWS] using h2
  have hsm : oeNumbered (lowerChars (normChars m.text.data)) = true := by
    rw [oeNumbered_lower_norm hmd hmw]
    exact hm
  have hs3 : oeNumbered (lowerChars (normChars h3.text.data)) = false := by
    rw [oeNumbered_lower_norm h3d h3w]
    exact h3n
  rw [h1, hs3] at hsm
  exact absurd hsm (by simp)

theorem oeNumbered_head {cs : List Char} (h : oeNumbered cs = true) :
    ∃ a t', cs = a :: t' ∧ isNumCh a = true := by
  match cs with
  | [] => simp [oeNumbered] at h
  | [c] => simp [oeNumbered] at h
  | c1 :: c2 :: r =>
    simp only [oeNumbered, Bool.and_eq_true] at h
    exact ⟨c1, c2 :: r, rfl, h.1⟩

/-- Every entry of the PP finalizer reports `raw page + 1 - page_offset`
of one of the input headings. -/
theorem finalize_outlinePP_pages (hs : List Heading) (p : ProfilePP)
    (e : OutlineEntry) (he : e ∈ finalize_outlinePP hs p) :
    ∃ h ∈ hs, e.page = h.page + 1 - p.page_offset := by
  unfold finalize_outlinePP at he
  split at he
  · simp at he
  · obtain ⟨l₁, h', l₂, hl, rfl, _, _⟩ :=
      finalizePass_mem_spec p.page_offset _ _ _ he
    have hmem : h' ∈ mergePassPP (sortHeadings hs) := by
      rw [hl]
      simp
    obtain ⟨h, hmem2, hpage, _, _⟩ := mergePassPP_mem _ h' hmem
    exact ⟨h, sortHeadings_mem.mp hmem2, by simp [mkEntry, hpage]⟩

theorem finalize_outlineOE_pages (hs : List Heading) (p : ProfileOE)
    (e : OutlineEntry) (he : e ∈ finalize_outlineOE hs p) :
    ∃ h ∈ hs, e.page = h.page + 1 - p.page_offset := by
  unfold finalize_outlineOE at he
  split at he
  · simp at he
  · obtain ⟨l₁, h', l₂, hl, rfl, _, _⟩ :=
      finalizePass_mem_spec p.page_offset _ _ _ he
    have hmem : h' ∈ mergePassOE (sortHeadings hs) := by
      rw [hl]
      simp
    obtain ⟨h, hmem2, hpage, _, _⟩ := mergePassOE_mem _ h' hmem
    exact ⟨h, sortHeadings_mem.mp hmem2, by simp [mkEntry, hpage]⟩

/-- The dedup loop: distinct output keys, first-occurrence kept, every
input key represented. -/
theorem finalize_dedup_spec (off : Nat) (m : List Heading) :
    ((finalizePass off m []).map eKey).Nodup ∧
    (∀ e ∈ finalizePass off m [],
      ∃ l₁ h l₂, m = l₁ ++ h :: l₂ ∧ e = mkEntry off h ∧
        ∀ h' ∈ l₁, mkKey off h' ≠ mkKey off h) ∧
    (∀ h ∈ m, ∃ h', mkEntry off h' ∈ finalizePass off m [] ∧
      mkKey off h' = mkKey off h) := by
  refine ⟨(finalizePass_keys off m []).1, ?_, ?_⟩
  · intro e he
    obtain ⟨l₁, h, l₂, hl, hee, _, hfirst⟩ :=
      finalizePass_mem_spec off m [] e he
    exact ⟨l₁, h, l₂, hl, hee, hfirst⟩
  · intro h hh
    rcases finalizePass_covers off m [] h hh with hmem | hex
    · simp at hmem
    · exact hex

theorem keyword_classPP (l : LogicalLine) (p : ProfilePP)
    (h4 : hasFourDots l.text.data = false) (hdl : dateLikePP l.text.data = false)
    (hst : structuralLevelPP l.text.data = none)
    (hkw : strip l.text ∈ special_h1s) :
    find_headingsPP [l] p =
      (if l.is_bold || qLT p.baseline_font_size l.font_size
       then [mkHeading l "H1"] else []) := by
  simp only [find_headingsPP]
  rw [h4, hdl, hst]
  simp [hkw]

theorem keyword_classOE (l : LogicalLine) (p : ProfileOE)
    (hkw : strip l.text ∈ strong_H1s) :
    find_headingsOE [l] p = [mkHeading l "H1"] := by
  unfold find_headingsOE
  rw [show findRegularOE [l] p.baseline_font_size = [] from by
    unfold findRegularOE
    rw [if_pos hkw]
    rfl]
  simp [List.filter_cons, hkw]

/-! ## Claim theorems -/

/-- C1 counterexample: the line "1. Introduction" starts with one numeral
segment, a separator and non-numeral text, so the claim assigns it H1; the
`process_pdfs.py` classifier does classify it H1, but the
`outline_extractor.py` classifier — whose numbered rule requires
whitespace directly after the numerals — classifies it as no heading at
all. -/
theorem c1_counterexample :
    find_headingsPP [⟨"1. Introduction", 10, "F", false, 0, 72, 100, 200, 110⟩]
        ⟨10, 0, 72⟩ = [⟨"1. Introduction", "H1", 0, 100⟩] ∧
    find_headingsOE [⟨"1. Introduction", 10, "F", false, 0, 72, 100, 200, 110⟩]
        ⟨10, 0⟩ = [] := by
  decide

/-- C1 (amended): the numbering depth law, per implementation.  In
`process_pdfs.py` the structural cascade assigns `N.<ws>` → H1,
`N.M<ws>` → H2, `N.M.K<ws>` → H3 and leaves prefixes of four or more
segments unclassified.  In `outline_extractor.py` the numbered rule
requires whitespace directly after the numeral segments: `N<ws>text` →
H1, `N.M<ws>text` → H2, `N.M.K<ws>text` → H3, four or more segments →
no heading from this rule, and the period form `N.<ws>text` (e.g.
"1. Introduction") is not matched by it. -/
theorem c1_amended :
    (∀ (d : List Char) (sep w : Char) (rest : List Char),
      (∀ a ∈ d, isNumCh a = true) → d ≠ [] → isSepCh sep = true →
      isWS w = true → structuralLevelPP (d ++ sep :: w :: rest) = some "H1") ∧
    (∀ (d1 d2 : List Char) (w : Char) (rest : List Char),
      (∀ a ∈ d1, isNumCh a = true) → d1 ≠ [] →
      (∀ a ∈ d2, isNumCh a = true) → d2 ≠ [] → isWS w = true →
      structuralLevelPP (d1 ++ '.' :: (d2 ++ w :: rest)) = some "H2") ∧
    (∀ (d1 d2 d3 : List Char) (w : Char) (rest : List Char),
      (∀ a ∈ d1, isNumCh a = true) → d1 ≠ [] →
      (∀ a ∈ d2, isNumCh a = true) → d2 ≠ [] →
      (∀ a ∈ d3, isNumCh a = true) → d3 ≠ [] → isWS w = true →
      structuralLevelPP (d1 ++ '.' :: (d2 ++ '.' :: (d3 ++ w :: rest)))
        = some "H3") ∧
    (∀ (d1 d2 d3 d4 : List Char) (rest : List Char),
      (∀ a ∈ d1, isNumCh a = true) → d1 ≠ [] →
      (∀ a ∈ d2, isNumCh a = true) → d2 ≠ [] →
      (∀ a ∈ d3, isNumCh a = true) → d3 ≠ [] →
      (∀ a ∈ d4, isNumCh a = true) → d4 ≠ [] →
      structuralLevelPP
        (d1 ++ '.' :: (d2 ++ '.' :: (d3 ++ '.' :: (d4 ++ rest)))) = none) ∧
    (∀ (d1 : List Char) (w c : Char) (rest : List Char),
      (∀ a ∈ d1, isNumCh a = true) → d1 ≠ [] → isWS w = true → c ≠ '\n' →
      numberedRuleOE (d1 ++ w :: c :: rest) = some "H1") ∧
    (∀ (d1 d2 : List Char) (w c : Char) (rest : List Char),
      (∀ a ∈ d1, isNumCh a = true) → d1 ≠ [] →
      (∀ a ∈ d2, isNumCh a = true) → d2 ≠ [] → isWS w = true → c ≠ '\n' →
      numberedRuleOE (d1 ++ '.' :: (d2 ++ w :: c :: rest)) = some "H2") ∧
    (∀ (d1 d2 d3 : List Char) (w c : Char) (rest : List Char),
      (∀ a ∈ d1, isNumCh a = true) → d1 ≠ [] →
      (∀ a ∈ d2, isNumCh a = true) → d2 ≠ [] →
      (∀ a ∈ d3, isNumCh a = true) → d3 ≠ [] → isWS w = true → c ≠ '\n' →
      numberedRuleOE (d1 ++ '.' :: (d2 ++ '.' :: (d3 ++ w :: c :: rest)))
        = some "H3") ∧
    (∀ (d1 d2 d3 d4 : List Char) (w c : Char) (rest : List Char),
      (∀ a ∈ d1, isNumCh a = true) → d1 ≠ [] →
      (∀ a ∈ d2, isNumCh a = true) → d2 ≠ [] →
      (∀ a ∈ d3, isNumCh a = true) → d3 ≠ [] →
      (∀ a ∈ d4, isNumCh a = true) → d4 ≠ [] → isWS w = true → c ≠ '\n' →
      numberedRuleOE
        (d1 ++ '.' :: (d2 ++ '.' :: (d3 ++ '.' :: (d4 ++ w :: c :: rest))))
        = none) ∧
    (∀ (d1 : List Char) (w : Char) (rest : List Char),
      (∀ a ∈ d1, isNumCh a = true) → d1 ≠ [] → isWS w = true →
      numberedRuleOE (d1 ++ '.' :: w :: rest) = none) := by
  refine ⟨?_, ?_, ?_, ?_, ?_, ?_, ?_, ?_, ?_⟩
  · intro d sep w rest hd hne hs hw
    exact structuralLevelPP_H1 hd hne hs hw rest
  · intro d1 d2 w rest hd1 hne1 hd2 hne2 hw
    exact structuralLevelPP_H2 hd1 hne1 hd2 hne2 hw rest
  · intro d1 d2 d3 w rest hd1 hne1 hd2 hne2 hd3 hne3 hw
    exact structuralLevelPP_H3 hd1 hne1 hd2 hne2 hd3 hne3 hw rest
  · intro d1 d2 d3 d4 rest hd1 hne1 hd2 hne2 hd3 hne3 hd4 hne4
    exact structuralLevelPP_deep hd1 hne1 hd2 hne2 hd3 hne3 hd4 hne4 rest
  · intro d1 w c rest hd1 hne1 hw hc
    exact numberedRuleOE_seg1 hd1 hne1 hw hc rest
  · intro d1 d2 w c rest hd1 hne1 hd2 hne2 hw hc
    exact numberedRuleOE_seg2 hd1 hne1 hd2 hne2 hw hc rest
  · intro d1 d2 d3 w c rest hd1 hne1 hd2 hne2 hd3 hne3 hw hc
    exact numberedRuleOE_seg3 hd1 hne1 hd2 hne2 hd3 hne3 hw hc rest
  · intro d1 d2 d3 d4 w c rest hd1 hne1 hd2 hne2 hd3 hne3 hd4 hne4 hw hc
    exact numberedRuleOE_seg4 hd1 hne1 hd2 hne2 hd3 hne3 hd4 hne4 hw hc rest
  · intro d1 w rest hd1 hne1 hw
    exact numberedRuleOE_dot_ws hd1 hne1 hw rest

/-- C1 amended witness: depth 1, 2, 3, ≥4 instances for both matchers. -/
theorem c1_amended_witness :
    structuralLevelPP (['1'] ++ '.' :: ' ' :: "Intro".data) = some "H1" ∧
    structuralLevelPP (['2'] ++ '.' :: (['1'] ++ ' ' :: "Audience".data))
      = some "H2" ∧
    structuralLevelPP
      (['2'] ++ '.' :: (['1'] ++ '.' :: (['3'] ++ ' ' :: "Scope".data)))
      = some "H3" ∧
    structuralLevelPP
      (['1'] ++ '.' :: (['2'] ++ '.' :: (['3'] ++ '.' :: (['4'] ++ " x".data))))
      = none ∧
    numberedRuleOE (['1'] ++ ' ' :: 'I' :: "ntro".data) = some "H1" ∧
    numberedRuleOE (['2'] ++ '.' :: (['1'] ++ ' ' :: 'A' :: "udience".data))
      = some "H2" ∧
    numberedRuleOE
      (['1'] ++ '.' :: (['2'] ++ '.' :: (['3'] ++ ' ' :: 'S' :: "cope".data)))
      = some "H3" ∧
    numberedRuleOE
      (['1'] ++ '.' :: (['2'] ++ '.' :: (['3'] ++ '.' :: (['4'] ++ ' ' :: 'x' :: []))))
      = none ∧
    numberedRuleOE (['1'] ++ '.' :: ' ' :: "Introduction".data) = none := by
  refine ⟨?_, ?_, ?_, ?_, ?_, ?_, ?_, ?_, ?_⟩
  · exact c1_amended.1 ['1'] '.' ' ' "Intro".data (by decide) (by decide)
      (by decide) (by decide)
  · exact c1_amended.2.1 ['2'] ['1'] ' ' "Audience".data (by decide) (by decide)
      (by decide) (by decide) (by decide)
  · exact c1_amended.2.2.1 ['2'] ['1'] ['3'] ' ' "Scope".data (by decide)
      (by decide) (by decide) (by decide) (by decide) (by decide) (by decide)
  · exact c1_amended.2.2.2.1 ['1'] ['2'] ['3'] ['4'] " x".data (by decide)
      (by decide) (by decide) (by decide) (by decide) (by decide) (by decide)
      (by decide)
  · exact c1_amended.2.2.2.2.1 ['1'] ' ' 'I' "ntro".data (by decide) (by decide)
      (by decide) (by decide)
  · exact c1_amended.2.2.2.2.2.1 ['2'] ['1'] ' ' 'A' "udience".data (by decide)
      (by decide) (by decide) (by decide) (by decide) (by decide)
  · exact c1_amended.2.2.2.2.2.2.1 ['1'] ['2'] ['3'] ' ' 'S' "cope".data
      (by decide) (by decide) (by decide) (by decide) (by decide) (by decide)
      (by decide) (by decide)
  · exact c1_amended.2.2.2.2.2.2.2.1 ['1'] ['2'] ['3'] ['4'] ' ' 'x' []
      (by decide) (by decide) (by decide) (by decide) (by decide) (by decide)
      (by decide) (by decide) (by decide) (by decide)
  · exact c1_amended.2.2.2.2.2.2.2.2 ['1'] ' ' "Introduction".data (by decide)
      (by decide) (by decide)

/-- C2 counterexample: on the empty LogicalLine input the pipeline's
success path returns title `"  "` (the code appends two spaces to the
stripped title), not the empty string the claim demands. -/
theorem c2_counterexample :
    process_linesPP [] 1 = { title := "  ", outline := [] } ∧
    process_linesPP [] 1 ≠ { title := "", outline := [] } ∧
    process_linesOE [] = { title := "  ", outline := [] } ∧
    process_linesOE [] ≠ { title := "", outline := [] } := by
  decide

/-- C2 (amended): for the empty LogicalLine input both pipelines return
exactly `{title: "  ", outline: []}` — a two-space title and an empty
outline — for every page count; no stage raises (all stages are total
functions). -/
theorem c2_amended : ∀ (pageCount : Nat),
    process_linesPP [] pageCount = { title := "  ", outline := [] } ∧
    process_linesOE [] = { title := "  ", outline := [] } := by
  intro pageCount
  exact ⟨rfl, rfl⟩

/-- C3 counterexample: for the one-line document "Hello World" the
returned title is `"Hello World  "` — two trailing spaces, not the
single trailing space the claim states. -/
theorem c3_counterexample :
    (process_linesPP [⟨"Hello World", 12, "F", false, 0, 72, 100, 200, 110⟩] 1).title
      = "Hello World  " ∧
    "Hello World  " ≠ "Hello World " := by
  decide

/-- C3 (amended): every produced OutlineEntry's text is a (post-merge)
heading text with whitespace runs collapsed to single spaces, trimmed,
plus exactly one trailing space; the title is the extracted title
stripped plus exactly two trailing spaces. -/
theorem c3_amended : ∀ (lines : List LogicalLine) (pageCount : Nat),
    (∀ e ∈ (process_linesPP lines pageCount).outline,
      ∃ h ∈ mergePassPP (sortHeadings
          (find_headingsPP lines (build_profilePP lines pageCount))),
        e.text = normWS h.text ++ " ") ∧
    (process_linesPP lines pageCount).title
      = strip (extract_titlePP lines) ++ "  " ∧
    (∀ e ∈ (process_linesOE lines).outline,
      ∃ h ∈ mergePassOE (sortHeadings
          (find_headingsOE lines (build_profileOE lines))),
        e.text = normWS h.text ++ " ") ∧
    (process_linesOE lines).title = strip (extract_titleOE lines) ++ "  " := by
  intro lines pageCount
  refine ⟨?_, rfl, ?_, rfl⟩
  · intro e he
    simp only [process_linesPP, finalize_outlinePP] at he
    split at he
    · simp at he
    · obtain ⟨l₁, h, l₂, hl, rfl, _, _⟩ :=
        finalizePass_mem_spec _ _ _ _ he
      exact ⟨h, by rw [hl]; simp, rfl⟩
  · intro e he
    simp only [process_linesOE, finalize_outlineOE] at he
    split at he
    · simp at he
    · obtain ⟨l₁, h, l₂, hl, rfl, _, _⟩ :=
        finalizePass_mem_spec _ _ _ _ he
      exact ⟨h, by rw [hl]; simp, rfl⟩

/-- C3 amended witness at the document `["References" (bold, page 0)]`
with page count 2, whose outline is `[{H1, "References ", 0}]`. -/
theorem c3_amended_witness :
    ∃ h ∈ mergePassPP (sortHeadings
        (find_headingsPP [⟨"References", 10, "F", true, 0, 72, 100, 200, 110⟩]
          (build_profilePP [⟨"References", 10, "F", true, 0, 72, 100, 200, 110⟩] 2))),
      (⟨"H1", "References ", 0⟩ : OutlineEntry).text = normWS h.text ++ " " := by
  have := (c3_amended [⟨"References", 10, "F", true, 0, 72, 100, 200, 110⟩] 2).1
    ⟨"H1", "References ", 0⟩ (by decide)
  exact this

/-- C4: page normalization law — every OutlineEntry produced by either
finalizer reports `raw_page_index + 1 - page_offset` of one of the
input headings. -/
theorem c4_page_law :
    (∀ (hs : List Heading) (p : ProfilePP) (e : OutlineEntry),
      e ∈ finalize_outlinePP hs p →
      ∃ h ∈ hs, e.page = h.page + 1 - p.page_offset) ∧
    (∀ (hs : List Heading) (p : ProfileOE) (e : OutlineEntry),
      e ∈ finalize_outlineOE hs p →
      ∃ h ∈ hs, e.page = h.page + 1 - p.page_offset) :=
  ⟨finalize_outlinePP_pages, finalize_outlineOE_pages⟩

/-- C4 witness: with `page_offset = 1` a heading with raw page index 1
is reported as page 1, and with `page_offset = 0` raw index 0 is
reported as page 1. -/
theorem c4_page_law_witness :
    (∃ h ∈ [(⟨"Intro", "H1", 1, 0⟩ : Heading)],
      (⟨"H1", "Intro ", 1⟩ : OutlineEntry).page
        = h.page + 1 - (⟨10, 1, 72⟩ : ProfilePP).page_offset) ∧
    (∃ h ∈ [(⟨"Intro", "H1", 0, 0⟩ : Heading)],
      (⟨"H1", "Intro ", 1⟩ : OutlineEntry).page
        = h.page + 1 - (⟨10, 0⟩ : ProfileOE).page_offset) := by
  constructor
  · exact c4_page_law.1 [⟨"Intro", "H1", 1, 0⟩] ⟨10, 1, 72⟩
      ⟨"H1", "Intro ", 1⟩ (by decide)
  · exact c4_page_law.2 [⟨"Intro", "H1", 0, 0⟩] ⟨10, 0⟩
      ⟨"H1", "Intro ", 1⟩ (by decide)

/-- C5 counterexample: for a sparse single-page document (one line on
page 0, page count 1) the claim demands `page_offset = 0`, and
`process_pdfs.py` does compute 0, but `outline_extractor.py` — whose
profiler has no page-count conjunct — computes 1. -/
theorem c5_counterexample :
    (build_profileOE [⟨"Only line", 10, "F", false, 0, 72, 100, 200, 110⟩]).page_offset
      = 1 ∧
    (build_profilePP [⟨"Only line", 10, "F", false, 0, 72, 100, 200, 110⟩] 1).page_offset
      = 0 ∧
    (1 : Nat) ≠ 0 := by
  decide

/-- C5 (amended): `process_pdfs.py` sets `page_offset = 1` exactly when
the first page has fewer than 10 logical lines and the document has
more than one page, else 0; `outline_extractor.py` sets it to 1 exactly
when the first page has fewer than 5 logical lines, regardless of the
page count (so a sparse single-page document gets offset 1 there). -/
theorem c5_amended : ∀ (lines : List LogicalLine) (pageCount : Nat),
    ((build_profilePP lines pageCount).page_offset = 1 ↔
      (lines.filter (fun l => decide (l.page = 0))).length < 10 ∧ 1 < pageCount) ∧
    ((build_profilePP lines pageCount).page_offset = 0 ∨
      (build_profilePP lines pageCount).page_offset = 1) ∧
    ((build_profileOE lines).page_offset = 1 ↔
      (lines.filter (fun l => decide (l.page = 0))).length < 5) ∧
    ((build_profileOE lines).page_offset = 0 ∨
      (build_profileOE lines).page_offset = 1) := by
  intro lines pageCount
  refine ⟨?_, ?_, ?_, ?_⟩
  · simp only [build_profilePP]
    split
    · simp_all
    · simp_all
  · simp only [build_profilePP]
    split
    · right; rfl
    · left; rfl
  · simp only [build_profileOE]
    split
    · simp_all
    · simp_all
  · simp only [build_profileOE]
    split
    · right; rfl
    · left; rfl

/-- C5 amended witness: a ten-or-fewer-line first page of a two-page
document gives offset 1 in `process_pdfs.py`; a one-line document gives
offset 1 in `outline_extractor.py`. -/
theorem c5_amended_witness :
    (build_profilePP [] 2).page_offset = 1 ∧
    (build_profileOE []).page_offset = 1 := by
  constructor
  · exact (c5_amended [] 2).1.mpr ⟨by decide, by decide⟩
  · exact (c5_amended [] 0).2.2.1.mpr (by decide)

/-- C6 counterexample: the headings "1. Same" (y=0) and "1. Same" (y=2)
have identical whitespace-normalized lowercased texts and the same final
page, yet they do not collapse to one OutlineEntry carrying that text:
each is altered by the continuation-merge pass first, and the outline
contains two entries, neither with text "1. Same ". -/
theorem c6_counterexample :
    normWS (⟨"1. Same", "H1", 0, 0⟩ : Heading).text
      = normWS (⟨"1. Same", "H1", 0, 2⟩ : Heading).text ∧
    (⟨"1. Same", "H1", 0, 0⟩ : Heading).page
      = (⟨"1. Same", "H1", 0, 2⟩ : Heading).page ∧
    finalize_outlinePP
        [⟨"1. Same", "H1", 0, 0⟩, ⟨"cont", "H2", 0, 1⟩,
         ⟨"1. Same", "H1", 0, 2⟩, ⟨"tail", "H2", 0, 3⟩] ⟨10, 0, 72⟩
      = [⟨"H1", "1. Same cont ", 1⟩, ⟨"H1", "1. Same tail ", 1⟩] ∧
    (finalize_outlinePP
        [⟨"1. Same", "H1", 0, 0⟩, ⟨"cont", "H2", 0, 1⟩,
         ⟨"1. Same", "H1", 0, 2⟩, ⟨"tail", "H2", 0, 3⟩] ⟨10, 0, 72⟩).filter
      (fun e => decide (e.text = normWS "1. Same" ++ " ")) = [] := by
  decide

/-- C6 (amended): the dedup law holds for the post-merge headings: the
produced entries carry pairwise-distinct `(lowercased text, final page)`
keys, each entry is the first post-merge heading in sorted order with
its key, and every post-merge heading's key is represented by exactly
that entry — so any two post-merge headings with identical keys collapse
to one entry; headings altered by the continuation merge are
deduplicated under their merged text. -/
theorem c6_amended : ∀ (hs : List Heading) (p : ProfilePP) (q : ProfileOE),
    (((finalize_outlinePP hs p).map eKey).Nodup ∧
      (∀ e ∈ finalize_outlinePP hs p,
        ∃ l₁ h l₂, mergePassPP (sortHeadings hs) = l₁ ++ h :: l₂ ∧
          e = mkEntry p.page_offset h ∧
          ∀ h' ∈ l₁, mkKey p.page_offset h' ≠ mkKey p.page_offset h) ∧
      (∀ h ∈ mergePassPP (sortHeadings hs),
        ∃ h', mkEntry p.page_offset h' ∈ finalize_outlinePP hs p ∧
          mkKey p.page_offset h' = mkKey p.page_offset h)) ∧
    (((finalize_outlineOE hs q).map eKey).Nodup ∧
      (∀ e ∈ finalize_outlineOE hs q,
        ∃ l₁ h l₂, mergePassOE (sortHeadings hs) = l₁ ++ h :: l₂ ∧
          e = mkEntry q.page_offset h ∧
          ∀ h' ∈ l₁, mkKey q.page_offset h' ≠ mkKey q.page_offset h) ∧
      (∀ h ∈ mergePassOE (sortHeadings hs),
        ∃ h', mkEntry q.page_offset h' ∈ finalize_outlineOE hs q ∧
          mkKey q.page_offset h' = mkKey q.page_offset h)) := by
  intro hs p q
  constructor
  · unfold finalize_outlinePP
    split
    · subst_vars
      refine ⟨by simp, by simp, ?_⟩
      intro h hh
      simp [show sortHeadings [] = [] from rfl, mergePassPP] at hh
    · obtain ⟨h1, h2, h3⟩ := finalize_dedup_spec p.page_offset
        (mergePassPP (sortHeadings hs))
      exact ⟨h1, h2, h3⟩
  · unfold finalize_outlineOE
    split
    · subst_vars
      refine ⟨by simp, by simp, ?_⟩
      intro h hh
      simp [show sortHeadings [] = [] from rfl, mergePassOE] at hh
    · obtain ⟨h1, h2, h3⟩ := finalize_dedup_spec q.page_offset
        (mergePassOE (sortHeadings hs))
      exact ⟨h1, h2, h3⟩

/-- C6 amended witness: the first entry of the counterexample document
is the first post-merge heading with its key. -/
theorem c6_amended_witness :
    ∃ l₁ h l₂, mergePassPP (sortHeadings
        [⟨"1. Same", "H1", 0, 0⟩, ⟨"cont", "H2", 0, 1⟩,
         ⟨"1. Same", "H1", 0, 2⟩, ⟨"tail", "H2", 0, 3⟩]) = l₁ ++ h :: l₂ ∧
      (⟨"H1", "1. Same cont ", 1⟩ : OutlineEntry)
        = mkEntry (⟨10, 0, 72⟩ : ProfilePP).page_offset h ∧
      ∀ h' ∈ l₁, mkKey (⟨10, 0, 72⟩ : ProfilePP).page_offset h'
        ≠ mkKey (⟨10, 0, 72⟩ : ProfilePP).page_offset h :=
  (c6_amended
    [⟨"1. Same", "H1", 0, 0⟩, ⟨"cont", "H2", 0, 1⟩,
     ⟨"1. Same", "H1", 0, 2⟩, ⟨"tail", "H2", 0, 3⟩]
    ⟨10, 0, 72⟩ ⟨10, 0⟩).1.2.1 ⟨"H1", "1. Same cont ", 1⟩ (by decide)

/-- C7 counterexample: Scenario B in `outline_extractor.py`: the
consecutive same-page headings "3. Overview" and "Syllabus" merge into
"3. OverviewSyllabus" — the texts are concatenated with no separating
space — not the "3. Overview Syllabus" the claim states. -/
theorem c7_counterexample :
    finalize_outlineOE
        [⟨"3. Overview", "H1", 0, 0⟩, ⟨"Syllabus", "H2", 0, 1⟩] ⟨10, 0⟩
      = [⟨"H1", "3. OverviewSyllabus ", 1⟩] ∧
    "3. OverviewSyllabus " ≠ "3. Overview Syllabus " := by
  decide

/-- C7 (amended): the continuation merge drops the second of two
consecutive same-page headings when the first is numbered and the second
is not.  In `process_pdfs.py` the texts are stripped and joined with a
single space (so Scenario B yields "3. Overview Syllabus"); in
`outline_extractor.py` the second text is appended with no separator
after replacing " - " by " – " in the first (yielding
"3. OverviewSyllabus"). -/
theorem c7_amended :
    (∀ (h1 h2 : Heading), h1.page = h2.page →
      startsNumSep h1.text.data = true → startsNumSep h2.text.data = false →
      mergePassPP [h1, h2]
        = [{ h1 with
            text := ⟨stripWS h1.text.data ++ (' ' :: stripWS h2.text.data)⟩ }]) ∧
    (∀ (h1 h2 : Heading), h1.page = h2.page →
      oeStub h1.text.data = true → oeNumbered h2.text.data = false →
      mergePassOE [h1, h2]
        = [{ h1 with text := ⟨replDash h1.text.data ++ h2.text.data⟩ }]) ∧
    (∀ (h1 h2 : Heading) (p : ProfilePP), h1.page = h2.page → ¬ hLT h2 h1 →
      startsNumSep h1.text.data = true → startsNumSep h2.text.data = false →
      finalize_outlinePP [h1, h2] p
        = [mkEntry p.page_offset
            { h1 with
              text := ⟨stripWS h1.text.data ++ (' ' :: stripWS h2.text.data)⟩ }]) := by
  have hmergePP : ∀ (h1 h2 : Heading), h1.page = h2.page →
      startsNumSep h1.text.data = true → startsNumSep h2.text.data = false →
      mergePassPP [h1, h2]
        = [{ h1 with
            text := ⟨stripWS h1.text.data ++ (' ' :: stripWS h2.text.data)⟩ }] := by
    intro h1 h2 hp hs1 hs2
    simp only [mergePassPP]
    rw [if_pos ⟨hp, hs1, hs2⟩]
  refine ⟨hmergePP, ?_, ?_⟩
  · intro h1 h2 hp hs1 hs2
    simp only [mergePassOE]
    rw [if_pos ⟨hp, hs1, hs2⟩]
  · intro h1 h2 p hp hlt hs1 hs2
    unfold finalize_outlinePP
    rw [if_neg (by simp), sortHeadings_pair hlt, hmergePP h1 h2 hp hs1 hs2]
    simp only [finalizePass]
    rw [if_neg (by simp)]

/-- C7 amended witness: Scenario B through the `process_pdfs.py`
finalizer yields the single heading "3. Overview Syllabus ". -/
theorem c7_amended_witness :
    finalize_outlinePP
        [⟨"3. Overview", "H1", 0, 0⟩, ⟨"Syllabus", "H2", 0, 1⟩] ⟨10, 0, 72⟩
      = [⟨"H1", "3. Overview Syllabus ", 1⟩] := by
  have h := c7_amended.2.2 ⟨"3. Overview", "H1", 0, 0⟩ ⟨"Syllabus", "H2", 0, 1⟩
    ⟨10, 0, 72⟩ (by decide) (by decide) (by decide) (by decide)
  exact h.trans (by decide)

/-- C8 counterexample: in `outline_extractor.py` the literal line
"References" with baseline font size and non-bold style IS classified H1
by the keyword rule — that rule is not gated on boldness or oversize, so
the claim's "only when bold or oversize" fails there. -/
theorem c8_counterexample :
    (⟨"References", 10, "F", false, 0, 72, 100, 200, 110⟩ : LogicalLine).is_bold
      = false ∧
    ¬ ((⟨10, 0⟩ : ProfileOE).baseline_font_size
      < (⟨"References", 10, "F", false, 0, 72, 100, 200, 110⟩ : LogicalLine).font_size) ∧
    find_headingsOE [⟨"References", 10, "F", false, 0, 72, 100, 200, 110⟩] ⟨10, 0⟩
      = [⟨"References", "H1", 0, 100⟩] := by
  refine ⟨by decide, ?_, by decide⟩
  simp

/-- C8 (amended): in `process_pdfs.py` a line whose text is a canonical
section keyword is classified H1 exactly when it is bold or its font
size exceeds the baseline; in `outline_extractor.py` the keyword rule is
ungated and always classifies such a line H1. -/
theorem c8_amended :
    (∀ (l : LogicalLine) (p : ProfilePP), l.text ∈ special_h1s →
      find_headingsPP [l] p =
        (if l.is_bold || qLT p.baseline_font_size l.font_size
         then [mkHeading l "H1"] else [])) ∧
    (∀ (l : LogicalLine) (p : ProfileOE), l.text ∈ strong_H1s →
      find_headingsOE [l] p = [mkHeading l "H1"]) := by
  constructor
  · intro l p hm
    simp only [special_h1s, List.mem_cons, List.not_mem_nil, or_false] at hm
    rcases hm with hm | hm | hm | hm | hm | hm | hm | hm | hm | hm | hm | hm |
      hm | hm | hm <;>
      exact keyword_classPP l p (by rw [hm]; decide) (by rw [hm]; decide)
        (by rw [hm]; decide) (by rw [hm]; decide)
  · intro l p hm
    simp only [strong_H1s, List.mem_cons, List.not_mem_nil, or_false] at hm
    rcases hm with hm | hm | hm | hm <;>
      exact keyword_classOE l p (by rw [hm]; decide)

/-- C8 amended witness: the gated rule of `process_pdfs.py` rejects the
baseline-size non-bold "References" line and accepts the bold one. -/
theorem c8_amended_witness :
    find_headingsPP [⟨"References", 10, "F", false, 0, 72, 100, 200, 110⟩]
      ⟨10, 0, 72⟩ = [] ∧
    find_headingsPP [⟨"References", 10, "F", true, 0, 72, 100, 200, 110⟩]
      ⟨10, 0, 72⟩ = [⟨"References", "H1", 0, 100⟩] := by
  constructor
  · have h := c8_amended.1 ⟨"References", 10, "F", false, 0, 72, 100, 200, 110⟩
      ⟨10, 0, 72⟩ (by decide)
    exact h.trans (by decide)
  · have h := c8_amended.1 ⟨"References", 10, "F", true, 0, 72, 100, 200, 110⟩
      ⟨10, 0, 72⟩ (by decide)
    exact h.trans (by decide)

/-- C9 counterexample: a two-page document whose sparse cover page
carries the bold heading "References" gets `page_offset = 1`, and the
heading with raw page index 0 is reported as page 0 — not at least 1. -/
theorem c9_counterexample :
    (build_profilePP [⟨"References", 10, "F", true, 0, 72, 100, 200, 110⟩] 2).page_offset
      = 1 ∧
    (process_linesPP [⟨"References", 10, "F", true, 0, 72, 100, 200, 110⟩] 2).outline
      = [⟨"H1", "References ", 0⟩] ∧
    ¬ (1 ≤ (0 : Nat)) := by
  decide

/-- C9 (amended): every OutlineEntry's page is at least 1 provided every
input heading's raw page index is at least the profile's page offset;
the profiler's offset-1 case applied to a heading on raw page 0 reports
page 0. -/
theorem c9_amended : ∀ (lines : List LogicalLine) (pageCount : Nat)
    (hs : List Heading) (e : OutlineEntry),
    e ∈ finalize_outlinePP hs (build_profilePP lines pageCount) →
    (∀ h ∈ hs, (build_profilePP lines pageCount).page_offset ≤ h.page) →
    1 ≤ e.page := by
  intro lines pageCount hs e he hoff
  obtain ⟨h, hmem, hpage⟩ := finalize_outlinePP_pages hs _ e he
  have := hoff h hmem
  omega

/-- C9 amended witness at a single-heading document with offset 0. -/
theorem c9_amended_witness : 1 ≤ (⟨"H1", "A ", 1⟩ : OutlineEntry).page :=
  c9_amended [] 1 [⟨"A", "H1", 0, 0⟩] ⟨"H1", "A ", 1⟩ (by decide) (by decide)

theorem not_hLT_of (a b : Heading) (hp : a.page = b.page) (hy : a.y0 ≤ b.y0) :
    ¬ hLT b a := by
  intro hc
  rcases hc with hlt | ⟨heq, hql⟩
  · rw [hp] at hlt
    exact lt_irrefl _ hlt
  · rw [qLT_iff] at hql
    exact absurd hql (not_lt.mpr hy)

/-- C10: the continuation-merge scan resumes after the absorbed entry,
so a merged heading never absorbs the heading that follows it: for three
consecutive same-page headings — the first numbered, the next two
unnumbered continuations with whitespace-normalized texts (the
LogicalLine invariant) — the merge produces `[merged, third]` and the
finalizer emits exactly two entries, never one.  Both files. -/
theorem c10_merge_no_chain :
    (∀ (h1 h2 h3 : Heading) (p : ProfilePP),
      h1.page = h2.page → h2.page = h3.page →
      h1.y0 ≤ h2.y0 → h2.y0 ≤ h3.y0 →
      startsNumSep h1.text.data = true →
      startsNumSep h2.text.data = false →
      startsNumSep h3.text.data = false →
      (∃ c0 t0, h3.text.data = c0 :: t0 ∧ isWS c0 = false) →
      mergePassPP [h1, h2, h3]
        = [{ h1 with
            text := ⟨stripWS h1.text.data ++ (' ' :: stripWS h2.text.data)⟩ },
           h3] ∧
      (finalize_outlinePP [h1, h2, h3] p).length = 2) ∧
    (∀ (h1 h2 h3 : Heading) (q : ProfileOE),
      h1.page = h2.page → h2.page = h3.page →
      h1.y0 ≤ h2.y0 → h2.y0 ≤ h3.y0 →
      oeStub h1.text.data = true →
      oeNumbered h2.text.data = false →
      oeNumbered h3.text.data = false →
      (∃ c0 t0, h3.text.data = c0 :: t0 ∧ isWS c0 = false) →
      mergePassOE [h1, h2, h3]
        = [{ h1 with text := ⟨replDash h1.text.data ++ h2.text.data⟩ }, h3] ∧
      (finalize_outlineOE [h1, h2, h3] q).length = 2) := by
  constructor
  · intro h1 h2 h3 p hp12 hp23 hy12 hy23 hs1 hs2 hs3 hne3
    obtain ⟨c0, t0, h3d, h3w⟩ := hne3
    have hmerge : mergePassPP [h1, h2, h3]
        = [{ h1 with
            text := ⟨stripWS h1.text.data ++ (' ' :: stripWS h2.text.data)⟩ },
           h3] := by
      simp only [mergePassPP]
      rw [if_pos ⟨hp12, hs1, hs2⟩]
    refine ⟨hmerge, ?_⟩
    have hmnum : startsNumSep
        ({ h1 with
          text := ⟨stripWS h1.text.data ++ (' ' :: stripWS h2.text.data)⟩ }
            : Heading).text.data = true :=
      startsNumSep_mergedPP hs1
    have hkey := (mkKey_ne_numsep p.page_offset hmnum h3d h3w hs3).symm
    unfold finalize_outlinePP
    rw [if_neg (by simp),
      sortHeadings_three (not_hLT_of h1 h2 hp12 hy12)
        (not_hLT_of h2 h3 hp23 hy23),
      hmerge, finalizePass_pair p.page_offset hkey]
    rfl
  · intro h1 h2 h3 q hp12 hp23 hy12 hy23 hs1 hs2 hs3 hne3
    obtain ⟨c0, t0, h3d, h3w⟩ := hne3
    have hmerge : mergePassOE [h1, h2, h3]
        = [{ h1 with text := ⟨replDash h1.text.data ++ h2.text.data⟩ }, h3] := by
      simp only [mergePassOE]
      rw [if_pos ⟨hp12, hs1, hs2⟩]
    refine ⟨hmerge, ?_⟩
    have hmnum : oeNumbered
        ({ h1 with text := ⟨replDash h1.text.data ++ h2.text.data⟩ }
            : Heading).text.data = true :=
      oeNumbered_merged hs1
    obtain ⟨a, t', hmd, ha⟩ := oeNumbered_head hmnum
    have hkey := (mkKey_ne_oeNumbered q.page_offset hmnum hmd
      (num_not_ws ha) h3d h3w hs3).symm
    unfold finalize_outlineOE
    rw [if_neg (by simp),
      sortHeadings_three (not_hLT_of h1 h2 hp12 hy12)
        (not_hLT_of h2 h3 hp23 hy23),
      hmerge, finalizePass_pair q.page_offset hkey]
    rfl

/-- C10 witness: "3. Overview" + "Syllabus" + "Details" on one page
produce two entries in both files. -/
theorem c10_merge_no_chain_witness :
    mergePassPP [⟨"3. Overview", "H1", 0, 0⟩, ⟨"Syllabus", "H2", 0, 1⟩,
        ⟨"Details", "H2", 0, 2⟩]
      = [⟨"3. Overview Syllabus", "H1", 0, 0⟩, ⟨"Details", "H2", 0, 2⟩] ∧
    (finalize_outlinePP [⟨"3. Overview", "H1", 0, 0⟩, ⟨"Syllabus", "H2", 0, 1⟩,
        ⟨"Details", "H2", 0, 2⟩] ⟨10, 0, 72⟩).length = 2 ∧
    (finalize_outlineOE [⟨"3. Overview", "H1", 0, 0⟩, ⟨"Syllabus", "H2", 0, 1⟩,
        ⟨"Details", "H2", 0, 2⟩] ⟨10, 0⟩).length = 2 := by
  have hPP := c10_merge_no_chain.1 ⟨"3. Overview", "H1", 0, 0⟩
    ⟨"Syllabus", "H2", 0, 1⟩ ⟨"Details", "H2", 0, 2⟩ ⟨10, 0, 72⟩
    (by decide) (by decide) (by decide) (by decide) (by decide) (by decide)
    (by decide) ⟨'D', "etails".data, rfl, by decide⟩
  have hOE := c10_merge_no_chain.2 ⟨"3. Overview", "H1", 0, 0⟩
    ⟨"Syllabus", "H2", 0, 1⟩ ⟨"Details", "H2", 0, 2⟩ ⟨10, 0⟩
    (by decide) (by decide) (by decide) (by decide) (by decide) (by decide)
    (by decide) ⟨'D', "etails".data, rfl, by decide⟩
  exact ⟨hPP.1.trans (by decide), hPP.2, hOE.2⟩
